import Mathlib

/-!
Verification of the question-loading and text-normalization pipeline of the
telegram-q-bot repository.

Text is modelled as `List Char` (the JavaScript code only ever works with
strings character by character, via regular-expression scans, `split`/`join`,
`replaceAll`, `indexOf` and `trim`).  Every regular-expression pass of the
source is embedded as an explicit left-to-right scanner with the same
leftmost-match, non-overlapping semantics; scanners that consume a variable
number of characters take an explicit fuel argument (always called with
fuel at least the length of the input, where each step consumes at least one
character) so that every definition is structurally recursive and evaluates
inside the kernel.
-/

/-- Text, modelled as a list of characters. -/
abbrev Str := List Char

/-- Convert a Lean string literal to the `Str` model. -/
def str (s : String) : Str := s.data

/-- JavaScript whitespace class (the code points of the ECMAScript
`\s` class / `String.prototype.trim`). -/
def jsSpace (c : Char) : Bool :=
  c = ' ' || c = Char.ofNat 9 || c = Char.ofNat 10 || c = Char.ofNat 11 ||
  c = Char.ofNat 12 || c = Char.ofNat 13 || c = Char.ofNat 160 ||
  c = Char.ofNat 0x1680 ||
  (0x2000 ≤ c.toNat && c.toNat ≤ 0x200a) ||
  c = Char.ofNat 0x2028 || c = Char.ofNat 0x2029 || c = Char.ofNat 0x202f ||
  c = Char.ofNat 0x205f || c = Char.ofNat 0x3000 || c = Char.ofNat 0xfeff

/-- `String.prototype.trim`: drop whitespace from both ends. -/
def jsTrim (s : Str) : Str :=
  ((s.dropWhile jsSpace).reverse.dropWhile jsSpace).reverse

/-- Does `pat` occur as a contiguous substring of `s`?
(JavaScript `String.prototype.includes`.) -/
def containsSub (pat : Str) : Str → Bool
  | [] => pat.isEmpty
  | c :: cs => pat.isPrefixOf (c :: cs) || containsSub pat cs

/-- Split at the first occurrence of `pat`: returns the part before the
occurrence and the part after it, or `none` when `pat` does not occur.
(Used to embed lazy regex groups and `String.prototype.indexOf`.) -/
def splitFirst (pat : Str) : Str → Option (Str × Str)
  | [] => if pat.isEmpty then some ([], []) else none
  | c :: cs =>
    if pat.isPrefixOf (c :: cs) then some ([], (c :: cs).drop pat.length)
    else (splitFirst pat cs).map (fun pr => (c :: pr.1, pr.2))

/-- `Array.prototype.join` with a separator. -/
def joinSep (sep : Str) : List Str → Str
  | [] => []
  | [x] => x
  | x :: y :: xs => x ++ sep ++ joinSep sep (y :: xs)

/-- Replace every (leftmost, non-overlapping) occurrence of `pat` by `repl`;
fuelled scanner.  Embeds `String.prototype.replace(/literal/g, repl)` and
`replaceAll` for a non-empty literal pattern. -/
def replaceSubF (pat repl : Str) : Nat → Str → Str
  | 0, s => s
  | _ + 1, [] => []
  | f + 1, c :: cs =>
    if pat.isPrefixOf (c :: cs) && !pat.isEmpty then
      repl ++ replaceSubF pat repl f ((c :: cs).drop pat.length)
    else c :: replaceSubF pat repl f cs

/-- Replace every occurrence of the literal `pat` by `repl`. -/
def replaceSub (pat repl s : Str) : Str := replaceSubF pat repl s.length s

/-! ## Legacy (questions.chgk.info) adapter: content normalizer

Embeds `ChgkInfoQuestionLoader.cleanContent` and friends.  Each chained
`.replace(...)` call of the source is one scanner pass below, applied in the
same order. -/

/-- Scanner for one pass of `/<p><img[^>]*><\/p>/g → ""` (the
`removeImages` option of `cleanContent`).  At a position where the literal
`<p><img` is followed by a run of non-`>` characters, a `>`, and the literal
`</p>`, the whole match is dropped; otherwise the regex fails at this
position and the scan advances one character, like the JS engine. -/
def removeImgPF : Nat → Str → Str
  | 0, s => s
  | _ + 1, [] => []
  | f + 1, c :: cs =>
    if (str "<p><img").isPrefixOf (c :: cs) then
      let afterOpen := (c :: cs).drop 7
      let inner := afterOpen.takeWhile (fun x => x ≠ '>')
      let rest := afterOpen.drop inner.length
      match rest with
      | '>' :: rest2 =>
        if (str "</p>").isPrefixOf rest2 then
          removeImgPF f (rest2.drop 4)
        else c :: removeImgPF f cs
      | _ => c :: removeImgPF f cs
    else c :: removeImgPF f cs

/-- `cleanContent`, images-removal pass. -/
def removeImgP (s : Str) : Str := removeImgPF s.length s

/-- The `stopAtP` option of `cleanContent`: truncate at the first occurrence
of the two-character literal `"p "` (`cleaned.indexOf("p ")`). -/
def truncAtPSpace (s : Str) : Str :=
  match splitFirst (str "p ") s with
  | some (pre, _) => pre
  | none => s

/-- Scanner for `/<p\s*\/?>/g → ""`: a literal `<p`, a run of whitespace, an
optional `/`, then `>`. -/
def removePTagF : Nat → Str → Str
  | 0, s => s
  | _ + 1, [] => []
  | f + 1, c :: cs =>
    if (str "<p").isPrefixOf (c :: cs) then
      let afterOpen := (c :: cs).drop 2
      let spaces := afterOpen.takeWhile jsSpace
      let rest := afterOpen.drop spaces.length
      match rest with
      | '>' :: rest2 => removePTagF f rest2
      | '/' :: '>' :: rest2 => removePTagF f rest2
      | _ => c :: removePTagF f cs
    else c :: removePTagF f cs

/-- `cleanContent`, `<p>`-tag pass. -/
def removePTag (s : Str) : Str := removePTagF s.length s

/-- Scanner for `/<[^>]*>/g → ""`: a `<`, a run of non-`>` characters, then
`>`.  An unterminated `<...` (no later `>`) does not match and the `<` is
kept, as in the JS engine. -/
def removeTagsF : Nat → Str → Str
  | 0, s => s
  | _ + 1, [] => []
  | f + 1, c :: cs =>
    if c = '<' then
      let inner := cs.takeWhile (fun x => x ≠ '>')
      match cs.drop inner.length with
      | '>' :: rest2 => removeTagsF f rest2
      | _ => c :: removeTagsF f cs
    else c :: removeTagsF f cs

/-- `cleanContent`, tag-stripping pass. -/
def removeTags (s : Str) : Str := removeTagsF s.length s

/-- `ChgkInfoQuestionLoader.cleanContent(content, options)` (the entity table
and pass order are exactly those of the source). -/
def cleanContent (content : Str) (removeImages stopAtP : Bool) : Str :=
  let c1 := if removeImages then removeImgP content else content
  let c2 := if stopAtP then truncAtPSpace c1 else c1
  jsTrim
    (replaceSub (str "&gt;") (str ">")
      (replaceSub (str "&lt;") (str "<")
        (replaceSub (str "&amp;") (str "&")
          (replaceSub (str "&quot;") (str "\"")
            (replaceSub (str "&#0150;") (str "-")
              (replaceSub (str "&nbsp;") (str " ")
                (removeTags (removePTag c2))))))))

/-- `.replace(/[<>]/g, "")` — the residual angle-bracket deletion applied by
`parseAnswer` and `parseDescription` after `cleanContent`. -/
def removeAngles (s : Str) : Str :=
  s.filter (fun c => !(c = '<' || c = '>'))

/-- Does the text contain a raw angle bracket? -/
def containsAngle (s : Str) : Bool :=
  s.any (fun c => c = '<' || c = '>')

/-- `parseAnswer`: clean with `stopAtP`, then delete residual `<`/`>`. -/
def chgkParseAnswer (content : Str) : Str :=
  removeAngles (cleanContent content false true)

/-- `parseDescription`: same cleaning as `parseAnswer`. -/
def chgkParseDescription (content : Str) : Str :=
  removeAngles (cleanContent content false true)

/-! ## Legacy adapter: image extraction and section scan -/

/-- Base origin of the legacy source. -/
def chgkOrigin : Str := str "http://questions.chgk.info"

/-- URL resolution step of `ChgkInfoQuestionLoader.extractImages`: a
root-relative reference is prefixed with the source origin, anything else is
kept unchanged. -/
def chgkResolve (src : Str) : Str :=
  if (str "/").isPrefixOf src then chgkOrigin ++ src else src

/-- Scanner for the `src` groups of `/<p><img src="(.*?)">/g`, in source
order.  The lazy group `(.*?)` matches any character except a line
terminator, up to the first following `">` (JS `.` does not match
newlines). -/
def imgSrcScanF : Nat → Str → List Str
  | 0, _ => []
  | _ + 1, [] => []
  | f + 1, c :: cs =>
    if (str "<p><img src=\"").isPrefixOf (c :: cs) then
      match imgSrcTake ((c :: cs).drop 13) with
      | some (src, rest) => src :: imgSrcScanF f rest
      | none => imgSrcScanF f cs
    else imgSrcScanF f cs
where
  /-- Collect the lazy `(.*?)` prefix: stop right before the first `">`
  pair; fail on a line terminator or the end of input. -/
  imgSrcTake : Str → Option (Str × Str)
    | [] => none
    | c :: cs =>
      if (str "\">").isPrefixOf (c :: cs) then some ([], (c :: cs).drop 2)
      else if c = Char.ofNat 10 || c = Char.ofNat 13 ||
              c = Char.ofNat 0x2028 || c = Char.ofNat 0x2029 then none
      else (imgSrcTake cs).map (fun pr => (c :: pr.1, pr.2))

/-- The raw `src` attributes found by the image regex, in source order. -/
def imgSrcs (s : Str) : List Str := imgSrcScanF s.length s

/-- `ChgkInfoQuestionLoader.extractImages`: the while-loop that pushes each
resolved `src`, embedded as a fuelled scanner emitting resolved URLs. -/
def chgkExtractImagesF : Nat → Str → List Str
  | 0, _ => []
  | _ + 1, [] => []
  | f + 1, c :: cs =>
    if (str "<p><img src=\"").isPrefixOf (c :: cs) then
      match imgSrcScanF.imgSrcTake ((c :: cs).drop 13) with
      | some (src, rest) => chgkResolve src :: chgkExtractImagesF f rest
      | none => chgkExtractImagesF f cs
    else chgkExtractImagesF f cs

/-- `ChgkInfoQuestionLoader.extractImages(content)`. -/
def chgkExtractImages (content : Str) : List Str :=
  chgkExtractImagesF content.length content

/-- Finds the first match of `/<strong>([\s\S]*?)<\/strong>/`: returns the
text before the match, the (lazy, hence shortest) inner group, and the text
after the match. -/
def findStrong (s : Str) : Option (Str × Str × Str) :=
  match splitFirst (str "<strong>") s with
  | none => none
  | some (pre, afterOpen) =>
    match splitFirst (str "</strong>") afterOpen with
    | none => none
    | some (inner, rest) => some (pre, inner, rest)

/-- Tail of the `<strong>` scan: given the inner text of the current match
and the text after it, emit `(innerText, textUpToNextMatchStart)` pairs; the
second component of each pair is exactly the
`html.substring(strongIndex, nextIndex)` slice `processMatches` computes,
because consecutive `matchAll` matches are disjoint and in order. -/
def strongScanGo : Nat → Str → Str → List (Str × Str)
  | 0, inner, rest => [(inner, rest)]
  | f + 1, inner, rest =>
    match findStrong rest with
    | none => [(inner, rest)]
    | some (pre, inner2, rest2) => (inner, pre) :: strongScanGo f inner2 rest2

/-- All `<strong>` matches of the document together with the content slice
between each match and the next one (or the end of the document). -/
def strongScan (s : Str) : List (Str × Str) :=
  match findStrong s with
  | none => []
  | some (_, inner, rest) => strongScanGo s.length inner rest

/-- The mutable result record of `ChgkInfoQuestionLoader.loadQuestion`
(fields initialised to `null`/`[]`; `none` models both JS `null` and a
deleted field). -/
structure ChgkRecord where
  question : Option Str
  answer : Option Str
  description : Option Str
  questionPreview : List Str
  deriving Repr, DecidableEq

/-- The initial record built at the top of `loadQuestion`. -/
def chgkInit : ChgkRecord :=
  { question := none, answer := none, description := none, questionPreview := [] }

/-- One `forEach` step of `processMatches`: dispatch on which label the
strong text `includes`, in the if/else order of the source. -/
def chgkStep (r : ChgkRecord) (m : Str × Str) : ChgkRecord :=
  if containsSub (str "Вопрос 1:") m.1 then
    { r with questionPreview := r.questionPreview ++ chgkExtractImages m.2,
             question := some (cleanContent m.2 true false) }
  else if containsSub (str "Ответ:") m.1 then
    { r with answer := some (chgkParseAnswer m.2) }
  else if containsSub (str "Комментарии:") m.1 then
    { r with description := some (chgkParseDescription m.2) }
  else r

/-- `processMatches`: fold the dispatch over all matches. -/
def chgkProcessMatches (ms : List (Str × Str)) : ChgkRecord :=
  ms.foldl chgkStep chgkInit

/-- The final Question record shape shared by both adapters.  A present
field is `some`; `none` models both JS `null` and a deleted key. -/
structure Question where
  question : Option Str
  answer : Option Str
  description : Option Str
  questionPreview : Option (List Str)
  answerPreview : Option (List Str)
  deriving Repr, DecidableEq

/-- JS truthiness of an optional string (`null`/`undefined` and `""` are
falsy). -/
def jsTruthy : Option Str → Bool
  | none => false
  | some s => !s.isEmpty

/-- `cleanupResult`: delete `questionPreview` when empty and `description`
when falsy.  (`ChgkInfoQuestionLoader` has no `answerPreview` field.) -/
def chgkCleanup (r : ChgkRecord) : Question :=
  { question := r.question,
    answer := r.answer,
    description := if jsTruthy r.description then r.description else none,
    questionPreview :=
      if r.questionPreview.isEmpty then none else some r.questionPreview,
    answerPreview := none }

/-- The record produced by `ChgkInfoQuestionLoader.loadQuestion` from a
decoded HTML document (the fetch and KOI8-R decode are the ambient input). -/
def chgkLoad (html : Str) : Question :=
  chgkCleanup (chgkProcessMatches (strongScan html))

/-! ## JSON-API (gotquestions.online) adapter

Numbers coming from the API (the TrueDL difficulty metric and the
`complexity` acceptance percentages) are modelled as rationals; `toFixed(1)`
is embedded as exact decimal rounding (round half toward positive infinity,
as specified for `Number.prototype.toFixed`). -/

/-- Base origin of the JSON-API source. -/
def gotBaseUrl : Str := str "https://gotquestions.online"

/-- URL resolution of `GotQuestionsOnlineLoader.extractImages`. -/
def gotResolve (src : Str) : Str :=
  if (str "/").isPrefixOf src then gotBaseUrl ++ src else src

/-- `GotQuestionsOnlineLoader.extractImages(razdatkaPic)`: at most one
image; a falsy (empty) reference yields no image. -/
def gotExtractImages (razdatkaPic : Str) : List Str :=
  if razdatkaPic.isEmpty then [] else [gotResolve razdatkaPic]

/-- Decimal digits of a natural number, most significant first (fuelled;
`natChars n` always calls it with sufficient fuel). -/
def natCharsF : Nat → Nat → Str → Str
  | 0, _, acc => acc
  | f + 1, n, acc =>
    if n < 10 then Char.ofNat (48 + n) :: acc
    else natCharsF f (n / 10) (Char.ofNat (48 + n % 10) :: acc)

/-- Decimal rendering of a natural number. -/
def natChars (n : Nat) : Str := natCharsF (n + 1) n []

/-- `Number.prototype.toFixed(1)` idealized over an exact rational: the
integer `n` closest to `10 * q`, ties toward the larger `n`, rendered as
`n / 10 "." n % 10`.  The source applies `toFixed` to an IEEE-754 double;
this exact-rational idealization can differ from the program in the last
printed digit (e.g. the double mean of `[0.25, 0.05]` prints `0.1` while
the exact mean `0.15` renders `0.2`), so no theorem below relies on the
rendered digits. -/
def toFixed1 (q : ℚ) : Str :=
  let n : ℤ := ⌊10 * q + 1 / 2⌋
  if n < 0 then '-' :: natChars (n.natAbs / 10) ++ '.' :: natChars (n.natAbs % 10)
  else natChars (n.natAbs / 10) ++ '.' :: natChars (n.natAbs % 10)

/-- `complexity.reduce((a, b) => a + b) / complexity.length` idealized
over exact rationals (the source computes it in IEEE-754 doubles; the
source only evaluates it for a non-empty array). -/
def qmean (l : List ℚ) : ℚ := l.sum / l.length

/-- The raw question object taken from the API response.  String fields
model JS string-or-absent values, with `""` for an absent/falsy field (the
source only ever tests them for truthiness); `complexity` is `[]` when
absent. -/
structure QuestionData where
  text : Str
  razdatkaText : Str
  razdatkaPic : Str
  answer : Str
  zachet : Str
  comment : Str
  complexity : List ℚ
  answerPic : Str
  commentPic : Str
  id : Str
  deriving Repr, DecidableEq

/-- The question text after the `text` / `razdatkaText` merging steps of
`parseQuestionData`. -/
def gotQuestionText (qd : QuestionData) : Option Str :=
  let q0 : Option Str := if qd.text.isEmpty then none else some (jsTrim qd.text)
  if qd.razdatkaText.isEmpty then q0
  else
    let rt := jsTrim qd.razdatkaText
    if rt.isEmpty then q0
    else
      if jsTruthy q0 then some (q0.getD [] ++ str "\n\n📎 " ++ rt)
      else some rt

/-- The trailing complexity paragraph `parseQuestionData` appends to the
description: a link back to the question page, the rendered mean of the
`complexity` percentages, and the requested tier name. -/
def cxParagraph (tier : Str) (qd : QuestionData) : Str :=
  str "[↗️](" ++ gotBaseUrl ++ str "/question/" ++ qd.id ++ str ") *" ++
  toFixed1 (qmean qd.complexity) ++ str "%* верных ответов, сложность: *" ++
  tier ++ str "*"

/-- The ordered `descriptionParts` array built by `parseQuestionData`. -/
def gotDescriptionParts (tier : Str) (qd : QuestionData) : List Str :=
  (if qd.zachet.isEmpty then []
   else if (jsTrim qd.zachet).isEmpty then []
   else [str "Зачёт: " ++ jsTrim qd.zachet]) ++
  (if qd.comment.isEmpty then []
   else if (jsTrim qd.comment).isEmpty then []
   else [jsTrim qd.comment]) ++
  (if qd.complexity.isEmpty then [] else [cxParagraph tier qd])

/-- `GotQuestionsOnlineLoader.parseQuestionData` (`tier` is the loader's
`this.complexity`), including the final empty-field cleanup. -/
def gotParse (tier : Str) (qd : QuestionData) : Question :=
  let questionPreview :=
    if qd.razdatkaPic.isEmpty then [] else gotExtractImages qd.razdatkaPic
  let answerPreview :=
    (if qd.answerPic.isEmpty then [] else gotExtractImages qd.answerPic) ++
    (if qd.commentPic.isEmpty then [] else gotExtractImages qd.commentPic)
  let parts := gotDescriptionParts tier qd
  { question := gotQuestionText qd,
    answer := if qd.answer.isEmpty then none else some (jsTrim qd.answer),
    description := if parts.isEmpty then none else some (joinSep (str "\n\n") parts),
    questionPreview := if questionPreview.isEmpty then none else some questionPreview,
    answerPreview := if answerPreview.isEmpty then none else some answerPreview }

/-- One difficulty tier of the static `COMPLEXITY_RANGES` table. -/
structure ComplexityRange where
  min : ℚ
  max : ℚ
  pages : Nat
  deriving Repr, DecidableEq

/-- The own properties of the static `COMPLEXITY_RANGES` object literal. -/
def COMPLEXITY_RANGES (tier : String) : Option ComplexityRange :=
  if tier = "random" then some { min := 1/10, max := 9/2, pages := 500 }
  else if tier = "easy" then some { min := 1/10, max := 7/2, pages := 500 }
  else if tier = "medium" then some { min := 7/2, max := 13/2, pages := 500 }
  else if tier = "hard" then some { min := 13/2, max := 10, pages := 200 }
  else none

/-- The property names every plain object literal inherits from
`Object.prototype` (ECMA-262, Annex B included), which a bracket lookup
reaches when the key is not an own property.  All of them hold truthy
values (built-in functions, and `Object.prototype` itself for
`__proto__`). -/
def objectProtoProps : List String :=
  ["constructor", "hasOwnProperty", "isPrototypeOf", "propertyIsEnumerable",
   "toLocaleString", "toString", "valueOf", "__defineGetter__",
   "__defineSetter__", "__lookupGetter__", "__lookupSetter__", "__proto__"]

/-- Outcome of the range-selection step
`const range = COMPLEXITY_RANGES[complexity] || COMPLEXITY_RANGES.medium`
followed by `range.min.toString()` in the loader constructor. -/
inductive RangeOutcome where
  /-- The constructor proceeds with this `{min, max, pages}` range. -/
  | range (r : ComplexityRange)
  /-- The bracket lookup found an inherited `Object.prototype` member: it
  is truthy, so the `|| medium` fallback is skipped, `range.min` is
  `undefined`, and `range.min.toString()` throws a `TypeError` — the
  constructor fails. -/
  | typeError
  deriving Repr, DecidableEq

/-- The range selection of the `GotQuestionsOnlineLoader` constructor.  An
own property of the table selects its range; a key absent from the whole
prototype chain makes the lookup `undefined` (falsy) and `medium` is used;
a key naming an inherited `Object.prototype` member yields that truthy
member and the constructor throws a `TypeError`. -/
def gotRange (tier : String) : RangeOutcome :=
  match COMPLEXITY_RANGES tier with
  | some r => .range r
  | none =>
    if tier ∈ objectProtoProps then .typeError
    else .range { min := 7/2, max := 13/2, pages := 500 }

/-- `Math.floor(Math.random() * pages) + 1` with `r` the value drawn from
`Math.random()`. -/
def randomPage (r : ℚ) (pages : Nat) : Nat := (⌊r * pages⌋).toNat + 1

/-- One mocked `fetch` response for the JSON search API.  `questions?`
models the `data.questions` field: `none` for a missing field, `some l` for
an array. -/
structure ApiResponse where
  ok : Bool
  status : Nat
  questionsField : Option (List QuestionData)
  deriving Repr

/-- The body of `GotQuestionsOnlineLoader.loadQuestion` before its
`try`/`catch` wrapper.  `oracle` is the stream of responses the network
would return to successive fetches, and the second component of the result
is the part of that stream the function did not consume (so the number of
fetches performed is the number of consumed responses). -/
def gotLoadQuestionInner (tier : Str) (oracle : List ApiResponse)
    (randIdx : Nat) : Except Str Question × List ApiResponse :=
  match oracle with
  | [] => (.error (str "fetch failed"), [])
  | resp :: rest =>
    if !resp.ok then
      (.error (str "HTTP error! status: " ++ natChars resp.status), rest)
    else
      match resp.questionsField with
      | none => (.error (str "No questions found in response"), rest)
      | some [] => (.error (str "No questions found in response"), rest)
      | some (q :: qs) =>
        (.ok (gotParse tier ((q :: qs).getD (randIdx % (q :: qs).length) q)), rest)

/-- `loadQuestion` with the `catch` block that rewraps any thrown error as
`Failed to load question: <message>`. -/
def gotLoadQuestion (tier : Str) (oracle : List ApiResponse)
    (randIdx : Nat) : Except Str Question × List ApiResponse :=
  match gotLoadQuestionInner tier oracle randIdx with
  | (.error e, rest) => (.error (str "Failed to load question: " ++ e), rest)
  | (.ok q, rest) => (.ok q, rest)

/-- The `EmptyResultError` surfaced to the caller when a page holds zero
results. -/
def emptyResultError : Str :=
  str "Failed to load question: No questions found in response"

/-! ## Loader factory -/

/-- The adapter instance returned by the factory. -/
inductive Adapter where
  | chgkInfo : Adapter
  | gotQuestions (complexity : String) : Adapter
  deriving Repr, DecidableEq

/-- The `UnknownSourceError` message for an unrecognized source identifier
(`Object.keys(loaderMap).join(", ")` enumerates the two valid targets in
insertion order; `Object.keys` lists own properties only). -/
def unknownTargetMsg (target : String) : Str :=
  str "Unknown target: " ++ str target ++
  str ". Available targets: questions.chgk.info, gotquestions.online"

/-- Outcome of the `QuestionLoader` factory function. -/
inductive FactoryOutcome where
  /-- An own property of `loaderMap` selected a real loader class and the
  factory returned its instance. -/
  | adapter (a : Adapter)
  /-- The lookup was `undefined` (key absent from the whole prototype
  chain): the factory throws the `Unknown target` error. -/
  | unknownSource (msg : Str)
  /-- `loaderMap["constructor"]` is the inherited `Object` constructor —
  truthy, so the error branch is skipped and the factory returns
  `new Object(complexity)`: a wrapper object around the complexity string,
  not a loader. -/
  | wrapperObject (complexity : String)
  /-- The lookup found another inherited `Object.prototype` member: it is
  truthy (skipping the error branch) but not a constructor, so
  `new LoaderClass(complexity)` throws a `TypeError`. -/
  | typeError
  deriving Repr, DecidableEq

/-- The `QuestionLoader` factory function.  The bracket lookup in
`loaderMap` traverses the prototype chain: own properties give the two
loader classes (the `ChgkInfoQuestionLoader` constructor ignores the
complexity argument), inherited `Object.prototype` members are truthy and
bypass the `Unknown target` throw, and only a name absent from the whole
chain produces the error. -/
def questionLoaderFactory (target : String) (complexity : String) :
    FactoryOutcome :=
  if target = "questions.chgk.info" then .adapter .chgkInfo
  else if target = "gotquestions.online" then .adapter (.gotQuestions complexity)
  else if target = "constructor" then .wrapperObject complexity
  else if target ∈ objectProtoProps then .typeError
  else .unknownSource (unknownTargetMsg target)

/-! ## Markup-dialect escaping

The repository carries two revisions of `BaseQuestionLoader.escapeMarkdownV2`
over the same reserved-character list (which deliberately leaves `*`
out): a plain one (`src/lib/QuestionLoader/BaseQuestionLoader.js`) that
escapes the whole text, and a link-preserving one
(`src/lib/QuestionLoader.js`, `BaseQuestionLoader` revision) that first
replaces `[label](url)` constructs by `\u0000MDLINK<i>\u0000` placeholders,
escapes the remainder, and then restores the placeholders.  Per-character
escaping by `replaceAll(c, "\\" + c)` and by `split(c).join("\\" + c)` are
the same operation; both are embedded as `escOne`. -/

/-- Replace every occurrence of `c` by a backslash followed by `c`
(`text.replaceAll(c, "\\" + c)` = `text.split(c).join("\\" + c)`). -/
def escOne (c : Char) : Str → Str
  | [] => []
  | x :: xs => if x = c then '\\' :: x :: escOne c xs else x :: escOne c xs

/-- The MarkdownV2 reserved characters escaped by both revisions (`*` is
deliberately excluded so bold/italic markers survive). -/
def specialChars : List Char :=
  ['_', '[', ']', '(', ')', '~', Char.ofNat 96, '>', '#', '+', '-', '=',
   '|', Char.ofNat 123, Char.ofNat 125, '.', '!']

/-- The escape loop shared by both revisions: one `escOne` pass per
reserved character, in table order. -/
def escapeChars (s : Str) : Str :=
  specialChars.foldl (fun acc c => escOne c acc) s

/-- The plain revision of `escapeMarkdownV2`
(`src/lib/QuestionLoader/BaseQuestionLoader.js`), including the
`if (!text) return text` guard. -/
def escapeMarkdownV2Simple (s : Str) : Str :=
  if s.isEmpty then s else escapeChars s

/-- The NUL sentinel used by the link placeholders. -/
def nulChar : Char := Char.ofNat 0

/-- The placeholder `\u0000MDLINK<i>\u0000` substituted for the i-th link. -/
def placeholder (i : Nat) : Str :=
  nulChar :: str "MDLINK" ++ natChars i ++ [nulChar]

/-- Attempt of the link regex `\[([^\]]+)\]\(([^)]+)\)` at the current
position: a `[`, a non-empty run of non-`]` characters, `]`, `(`, a
non-empty run of non-`)` characters, and `)`.  Neither run can backtrack,
so the JS match at a position is exactly this greedy parse.  Returns the
matched text and the rest of the input. -/
def tryLink : Str → Option (Str × Str)
  | [] => none
  | c :: rest =>
    if c = '[' then
      let label := rest.takeWhile (fun x => x ≠ ']')
      if label.isEmpty then none
      else
        match rest.drop label.length with
        | ']' :: '(' :: r2 =>
          let url := r2.takeWhile (fun x => x ≠ ')')
          if url.isEmpty then none
          else
            match r2.drop url.length with
            | ')' :: r4 =>
              some ('[' :: label ++ ']' :: '(' :: url ++ [')'], r4)
            | _ => none
        | _ => none
    else none

/-- Left-to-right scan for the (leftmost, non-overlapping) link matches:
returns the list of (plain text before the match, match) pairs and the
plain text after the last match.  `acc` holds the reversed plain text
collected since the previous match. -/
def linkScanF : Nat → Str → Str → List (Str × Str) × Str
  | 0, acc, s => ([], acc.reverse ++ s)
  | _ + 1, acc, [] => ([], acc.reverse)
  | f + 1, acc, c :: cs =>
    match tryLink (c :: cs) with
    | some (link, rest) =>
      let pr := linkScanF f [] rest
      ((acc.reverse, link) :: pr.1, pr.2)
    | none => linkScanF f (c :: acc) cs

/-- The decomposition of a text into link matches and the plain text
around them. -/
def linkScan (s : Str) : List (Str × Str) × Str := linkScanF s.length [] s

/-- The link matches of a text, in order — the `placeholders` array built
by the replace callback. -/
def linkMatches (s : Str) : List Str := (linkScan s).1.map (fun pr => pr.2)

/-- Interleave the plain segments with numbered placeholders, starting at
index `k` — the output of `text.replace(linkRegex, ...)`. -/
def withPh : Nat → List (Str × Str) → Str → Str
  | _, [], tail => tail
  | k, (p, _) :: ps, tail => p ++ placeholder k ++ withPh (k + 1) ps tail

/-- The placeholder-substituted text of `escapeMarkdownV2`. -/
def phase1 (s : Str) : Str := withPh 0 (linkScan s).1 (linkScan s).2

/-- Is `c` an ASCII decimal digit (the regex class `\d`)? -/
def isDigitC (c : Char) : Bool := 48 ≤ c.toNat && c.toNat ≤ 57

/-- Numeric value of a digit string (`Number(n)` on the captured digits). -/
def charsToNat (ds : Str) : Nat :=
  ds.foldl (fun a c => a * 10 + (c.toNat - 48)) 0

/-- `placeholders[Number(n)]`; an out-of-range index is JS `undefined`,
which `String.prototype.replace` coerces to the text `undefined`. -/
def lookupPh (phs : List Str) (n : Nat) : Str :=
  (phs.get? n).getD (str "undefined")

/-- Attempt of the restore regex `\u0000MDLINK(\d+)\u0000` right after an
initial `\u0000`: the literal `MDLINK`, a non-empty greedy digit run, and a
closing `\u0000`.  Returns the captured number and the rest. -/
def tryPh (cs : Str) : Option (Nat × Str) :=
  if (str "MDLINK").isPrefixOf cs then
    let afterM := cs.drop 6
    let ds := afterM.takeWhile isDigitC
    if ds.isEmpty then none
    else
      match afterM.drop ds.length with
      | c :: rest => if c = nulChar then some (charsToNat ds, rest) else none
      | [] => none
  else none

/-- The restore pass `replaced.replace(/\u0000MDLINK(\d+)\u0000/g, ...)`,
as a fuelled scanner. -/
def restoreF (phs : List Str) : Nat → Str → Str
  | 0, s => s
  | _ + 1, [] => []
  | f + 1, c :: cs =>
    if c = nulChar then
      match tryPh cs with
      | some (n, rest) => lookupPh phs n ++ restoreF phs f rest
      | none => c :: restoreF phs f cs
    else c :: restoreF phs f cs

/-- The restore pass. -/
def restorePh (phs : List Str) (s : Str) : Str := restoreF phs s.length s

/-- The link-preserving revision of `escapeMarkdownV2`
(`src/lib/QuestionLoader.js`): protect links behind placeholders, escape
the remainder, restore the links. -/
def escapeMarkdownV2 (s : Str) : Str :=
  if s.isEmpty then s
  else restorePh (linkMatches s) (escapeChars (phase1 s))

/-- Reference rendering of the decomposition: escape each plain segment,
keep each link match verbatim. -/
def renderScanPairs : List (Str × Str) → Str → Str
  | [], tail => escapeChars tail
  | (p, l) :: ps, tail => escapeChars p ++ l ++ renderScanPairs ps tail

/-- Reference rendering of a whole `linkScan` decomposition. -/
def renderScan (pr : List (Str × Str) × Str) : Str :=
  renderScanPairs pr.1 pr.2

/-- `noBareAux c prev s`: scanning `s` with previous character `prev`,
every occurrence of `c` is immediately preceded by a backslash. -/
def noBareAux (c : Char) : Char → Str → Bool
  | _, [] => true
  | prev, y :: ys => (decide (y ≠ c) || decide (prev = '\\')) && noBareAux c y ys

/-- Every occurrence of `c` in the text is immediately preceded by a
backslash (a `c` in the first position has no predecessor and is bare). -/
def noBare (c : Char) (s : Str) : Bool :=
  match s with
  | [] => true
  | x :: xs => decide (x ≠ c) && noBareAux c x xs

/-- Does the text contain a backslash immediately followed by `*` (an
escaped emphasis character)? -/
def hasEscapedStar : Str → Bool
  | [] => false
  | x :: xs => (decide (x = '\\') && decide (xs.head? = some '*')) || hasEscapedStar xs

/-! ## `formatForTelegram` (current `BaseQuestionLoader.js` revision) -/

/-- The question section built by `formatForTelegram` (the label literal is
the exact byte content of the source file). -/
def fmtQuestionSection (qd : Question) : Str :=
  if jsTruthy qd.question then
    str "‚ùì *–í–æ–ø—Ä–æ—Å:*\n" ++ escapeMarkdownV2Simple (qd.question.getD [])
  else []

/-- The spoiler wrapper `s` of `formatForTelegram`. -/
def fmtSpoiler (spoiler : Bool) : Str := if spoiler then str "||" else []

/-- The `answerParts` array of `formatForTelegram`. -/
def fmtAnswerParts (qd : Question) (spoiler : Bool) : List Str :=
  (if jsTruthy qd.answer then
     [str "‚úÖ *–û—Ç–≤–µ—Ç:*\n" ++ fmtSpoiler spoiler ++
      escapeMarkdownV2Simple (qd.answer.getD []) ++ fmtSpoiler spoiler]
   else []) ++
  (if jsTruthy qd.description then
     [str "üí¨ *–ö–æ–º–º–µ–Ω—Ç–∞—Ä–∏–π:*\n" ++ fmtSpoiler spoiler ++
      escapeMarkdownV2Simple (qd.description.getD []) ++ fmtSpoiler spoiler]
   else []) 

/-- The joined answer/description text of `formatForTelegram`. -/
def fmtAnswerText (qd : Question) (spoiler : Bool) : Str :=
  joinSep (str "\n\n") (fmtAnswerParts qd spoiler)

/-- `BaseQuestionLoader.formatForTelegram(questionData, split, spoiler)`:
returns the `{question, answer}` pair of trimmed message texts. -/
def formatForTelegram (qd : Question) (split spoiler : Bool) : Str × Str :=
  let q0 := fmtQuestionSection qd
  let answerText := fmtAnswerText qd spoiler
  if split then (jsTrim q0, jsTrim answerText)
  else
    let q1 :=
      if !q0.isEmpty && !answerText.isEmpty then q0 ++ str "\n\n" ++ answerText
      else if !answerText.isEmpty then answerText
      else q0
    (jsTrim q1, jsTrim [])

/-! ## Reference predicates and sample inputs used by the theorems -/

/-- Overwrite semantics of a mutable optional field: the new value if one
was assigned, otherwise the old one. -/
def optOr (new old : Option Str) : Option Str :=
  match new with
  | some x => some x
  | none => old

/-- A strong-tag match dispatched to `parseQuestion`. -/
def isQuestionLabel (m : Str × Str) : Bool :=
  containsSub (str "Вопрос 1:") m.1

/-- A strong-tag match dispatched to `parseAnswer` (the else-if chain gives
the question label priority). -/
def isAnswerLabel (m : Str × Str) : Bool :=
  !isQuestionLabel m && containsSub (str "Ответ:") m.1

/-- A strong-tag match dispatched to `parseDescription`. -/
def isDescriptionLabel (m : Str × Str) : Bool :=
  !isQuestionLabel m && !containsSub (str "Ответ:") m.1 &&
  containsSub (str "Комментарии:") m.1

/-- A URL as produced by the `extractImages` resolution step over `base`:
either the resolution of a root-relative reference, or a non-root-relative
reference passed through unchanged. -/
def imgResolvedFrom (base u : Str) : Prop :=
  (∃ p, u = base ++ p ∧ (str "/").isPrefixOf p = true) ∨
  (str "/").isPrefixOf u = false

/-- Absolute URL, in the sense of the specification. -/
def isAbsoluteUrl (u : Str) : Bool :=
  (str "http://").isPrefixOf u || (str "https://").isPrefixOf u

/-- Sample API item whose image reference is relative but not
root-relative. -/
def qdRelPic : QuestionData :=
  { text := str "Вопрос", razdatkaText := [], razdatkaPic := str "img.png",
    answer := str "Ответ", zachet := [], comment := [], complexity := [],
    answerPic := [], commentPic := [], id := str "1" }

/-- Sample API item with a root-relative image reference. -/
def qdRootPic : QuestionData :=
  { text := str "Вопрос", razdatkaText := [], razdatkaPic := str "/a.png",
    answer := str "Ответ", zachet := [], comment := [], complexity := [],
    answerPic := [], commentPic := [], id := str "2" }

/-- A mocked API response with zero items. -/
def emptyPageResp : ApiResponse :=
  { ok := true, status := 200, questionsField := some [] }

/-- A second mocked response that must stay unconsumed. -/
def spareResp : ApiResponse :=
  { ok := true, status := 200, questionsField := some [qdRootPic] }

/-! ## Generic lemmas about the string model -/

theorem isPrefixOf_append_self (p t : Str) : p.isPrefixOf (p ++ t) = true := by
  induction p with
  | nil => simp [List.isPrefixOf]
  | cons c cs ih => simp [List.isPrefixOf, ih]

theorem isPrefixOf_append_of_isPrefixOf (a p t : Str) (h : p.isPrefixOf t = true) :
    (a ++ p).isPrefixOf (a ++ t) = true := by
  induction a with
  | nil => simpa using h
  | cons c cs ih => simp [List.isPrefixOf, ih]

theorem containsSub_of_isPrefixOf (pat s : Str) (h : pat.isPrefixOf s = true) :
    containsSub pat s = true := by
  cases s with
  | nil =>
    cases pat with
    | nil => simp [containsSub]
    | cons c cs => simp [List.isPrefixOf] at h
  | cons c cs => simp [containsSub, h]

theorem containsSub_append_right (pat a t : Str) (h : containsSub pat t = true) :
    containsSub pat (a ++ t) = true := by
  induction a with
  | nil => simpa using h
  | cons c cs ih => simp [containsSub, ih]

theorem containsSub_self_append (pat t : Str) : containsSub pat (pat ++ t) = true :=
  containsSub_of_isPrefixOf _ _ (isPrefixOf_append_self pat t)

theorem removeAngles_no_angle (s : Str) : containsAngle (removeAngles s) = false := by
  induction s with
  | nil => simp [removeAngles, containsAngle]
  | cons c cs ih =>
    by_cases h : c = '<' ∨ c = '>'
    · rcases h with h | h <;> subst h <;>
        simp [removeAngles, containsAngle, List.filter] at ih ⊢
    · push_neg at h
      simp only [removeAngles, containsAngle, List.filter_cons, List.any_cons] at *
      simp [h.1, h.2, ih]

/-- Claim C1, counterexample: on the fragment `&lt;` the entity-decoding
step of `cleanContent` reintroduces a raw `<`, so the clean operation does
not guarantee an angle-bracket-free output. -/
theorem c1_counterexample :
    cleanContent (str "&lt;") false false = str "<" ∧
    containsAngle (cleanContent (str "&lt;") false false) = true := by
  constructor <;> decide

/-- Claim C1 (amended): `cleanContent` itself can leave raw angle brackets
(decoded entities, unterminated tags); the angle-bracket-free guarantee
holds for the answer and description parsers, which delete residual `<`/`>`
after cleaning. -/
theorem c1_theorem (content : Str) :
    containsAngle (chgkParseAnswer content) = false ∧
    containsAngle (chgkParseDescription content) = false :=
  ⟨removeAngles_no_angle _, removeAngles_no_angle _⟩

/-- Claim C7, counterexample: the identifier `constructor` is not a valid
source, yet the factory does not fail with the `UnknownSourceError`: the
bracket lookup finds the inherited `Object` constructor, which is truthy,
and the factory returns `new Object(complexity)` — a wrapper object. -/
theorem c7_counterexample :
    ("constructor" ≠ "questions.chgk.info" ∧
     "constructor" ≠ "gotquestions.online") ∧
    questionLoaderFactory "constructor" "medium" =
      FactoryOutcome.wrapperObject "medium" ∧
    ∀ msg : Str, questionLoaderFactory "constructor" "medium" ≠
      FactoryOutcome.unknownSource msg := by
  have h2 : questionLoaderFactory "constructor" "medium" =
      FactoryOutcome.wrapperObject "medium" := rfl
  refine ⟨⟨by decide, by decide⟩, h2, ?_⟩
  intro msg h
  rw [h2] at h
  exact FactoryOutcome.noConfusion h

/-- Claim C7 (amended): an unrecognized source identifier that does not
name an inherited `Object.prototype` member makes the factory fail with
the `UnknownSourceError` message, whose tail enumerates the two valid
identifiers; a valid identifier yields the matching adapter (the legacy
adapter constructor ignores the difficulty argument).  An identifier
naming an inherited member bypasses the error: `constructor` returns a
wrapper object around the complexity string, and the other inherited
members are not constructors, so instantiation throws a `TypeError`. -/
theorem c7_theorem :
    (∀ target complexity : String,
      target ≠ "questions.chgk.info" → target ≠ "gotquestions.online" →
      target ∉ objectProtoProps →
      questionLoaderFactory target complexity =
        .unknownSource (unknownTargetMsg target) ∧
      containsSub (str "questions.chgk.info") (unknownTargetMsg target) = true ∧
      containsSub (str "gotquestions.online") (unknownTargetMsg target) = true) ∧
    (∀ complexity : String,
      questionLoaderFactory "questions.chgk.info" complexity =
        .adapter .chgkInfo ∧
      questionLoaderFactory "gotquestions.online" complexity =
        .adapter (.gotQuestions complexity)) ∧
    (∀ complexity : String,
      questionLoaderFactory "constructor" complexity =
        .wrapperObject complexity) ∧
    (∀ target ∈ objectProtoProps, target ≠ "constructor" →
      ∀ complexity : String,
      questionLoaderFactory target complexity = .typeError) := by
  refine ⟨fun target complexity h1 h2 h3 => ⟨?_, ?_, ?_⟩,
    fun complexity => ⟨rfl, rfl⟩, fun complexity => rfl, ?_⟩
  · have h4 : target ≠ "constructor" := by
      intro hh; rw [hh] at h3; exact h3 (by decide)
    simp [questionLoaderFactory, h1, h2, h3, h4]
  · exact containsSub_append_right _ _ _ (by decide)
  · exact containsSub_append_right _ _ _ (by decide)
  · intro target htgt hne complexity
    have hvalid : ∀ t ∈ objectProtoProps,
        t ≠ "questions.chgk.info" ∧ t ≠ "gotquestions.online" := by decide
    simp [questionLoaderFactory, (hvalid target htgt).1,
      (hvalid target htgt).2, hne, htgt]

/-- Claim C7, witness: the unrecognized identifier of the specification
scenario (absent from the prototype chain), and an inherited member that
bypasses the error path. -/
theorem c7_witness :
    ("unknown-source" ≠ "questions.chgk.info" ∧
     "unknown-source" ≠ "gotquestions.online" ∧
     "unknown-source" ∉ objectProtoProps ∧
     "toString" ∈ objectProtoProps ∧ "toString" ≠ "constructor") ∧
    (questionLoaderFactory "unknown-source" "medium" =
       .unknownSource (unknownTargetMsg "unknown-source") ∧
     containsSub (str "questions.chgk.info")
       (unknownTargetMsg "unknown-source") = true ∧
     containsSub (str "gotquestions.online")
       (unknownTargetMsg "unknown-source") = true ∧
     questionLoaderFactory "toString" "medium" = .typeError) :=
  ⟨⟨by decide, by decide, by decide, by decide, by decide⟩,
   ⟨(c7_theorem.1 "unknown-source" "medium" (by decide) (by decide)
      (by decide)).1,
    (c7_theorem.1 "unknown-source" "medium" (by decide) (by decide)
      (by decide)).2.1,
    (c7_theorem.1 "unknown-source" "medium" (by decide) (by decide)
      (by decide)).2.2,
    c7_theorem.2.2.2 "toString" (by decide) (by decide) "medium"⟩⟩

theorem gotRange_pages_pos (tier : String) (r : ComplexityRange)
    (h : gotRange tier = RangeOutcome.range r) : 0 < r.pages := by
  unfold gotRange at h
  split at h
  · rename_i r2 heq
    injection h with h2
    unfold COMPLEXITY_RANGES at heq
    repeat' split at heq
    all_goals first
      | (injection heq with h3; rw [← h2, ← h3]; decide)
      | (exact absurd heq (by simp))
  · split at h
    · exact absurd h (by simp)
    · injection h with h2
      rw [← h2]; decide

/-- Claim C6, counterexample: the tier `constructor` is unrecognized, yet
the range selection does not fall back to `medium`: the bracket lookup
finds the truthy inherited `Object` constructor, `range.min` is
`undefined`, and `range.min.toString()` throws a `TypeError` in the
constructor. -/
theorem c6_counterexample :
    ("constructor" ≠ "random" ∧ "constructor" ≠ "easy" ∧
     "constructor" ≠ "medium" ∧ "constructor" ≠ "hard") ∧
    gotRange "constructor" = RangeOutcome.typeError ∧
    ∀ r : ComplexityRange, gotRange "constructor" ≠ RangeOutcome.range r := by
  have h2 : gotRange "constructor" = RangeOutcome.typeError := rfl
  refine ⟨⟨by decide, by decide, by decide, by decide⟩, h2, ?_⟩
  intro r h
  rw [h2] at h
  exact RangeOutcome.noConfusion h

/-- Claim C6 (amended): the static difficulty table sends `hard` to the
band `{6.5, 10}` with page ceiling 200 and `easy` to ceiling 500; an
unrecognized tier that does not name an inherited `Object.prototype`
member falls back to `medium`, while a tier naming an inherited member
makes the constructor throw a `TypeError`; and whenever a range is
selected, the random page drawn from
`Math.floor(Math.random() * pages) + 1` lies in `[1, pages]`. -/
theorem c6_theorem :
    gotRange "hard" =
      RangeOutcome.range { min := 13/2, max := 10, pages := 200 } ∧
    gotRange "easy" =
      RangeOutcome.range { min := 1/10, max := 7/2, pages := 500 } ∧
    (∀ tier : String, tier ≠ "random" → tier ≠ "easy" → tier ≠ "medium" →
      tier ≠ "hard" → tier ∉ objectProtoProps →
      gotRange tier = gotRange "medium") ∧
    (∀ tier ∈ objectProtoProps, gotRange tier = RangeOutcome.typeError) ∧
    (∀ (tier : String) (r : ComplexityRange) (rand : ℚ),
      gotRange tier = RangeOutcome.range r → 0 ≤ rand → rand < 1 →
      1 ≤ randomPage rand r.pages ∧ randomPage rand r.pages ≤ r.pages) := by
  refine ⟨rfl, rfl, ?_, by decide, ?_⟩
  · intro tier h1 h2 h3 h4 h5
    simp [gotRange, COMPLEXITY_RANGES, h1, h2, h3, h4, h5]
  · intro tier r rand h hr0 hr1
    have hPpos : 0 < r.pages := gotRange_pages_pos tier r h
    have hmul0 : (0 : ℚ) ≤ rand * r.pages :=
      mul_nonneg hr0 (by positivity)
    have hfl0 : (0 : ℤ) ≤ ⌊rand * (r.pages : ℚ)⌋ := Int.floor_nonneg.mpr hmul0
    have hmul1 : rand * (r.pages : ℚ) < r.pages := by
      have hPq : (0 : ℚ) < r.pages := by exact_mod_cast hPpos
      calc rand * (r.pages : ℚ) < 1 * r.pages :=
            mul_lt_mul_of_pos_right hr1 hPq
        _ = r.pages := one_mul _
    have hflP : ⌊rand * (r.pages : ℚ)⌋ < (r.pages : ℤ) :=
      Int.floor_lt.mpr (by exact_mod_cast hmul1)
    constructor
    · simp [randomPage]
    · simp only [randomPage]
      omega

/-- Claim C6, witness: an unrecognized tier absent from the prototype
chain, an inherited member name, and a concrete random draw for the
`hard` tier. -/
theorem c6_witness :
    ("weird" ≠ "random" ∧ "weird" ≠ "easy" ∧ "weird" ≠ "medium" ∧
     "weird" ≠ "hard" ∧ "weird" ∉ objectProtoProps ∧
     "constructor" ∈ objectProtoProps ∧
     gotRange "hard" =
       RangeOutcome.range { min := 13/2, max := 10, pages := 200 } ∧
     (0 : ℚ) ≤ 1/2 ∧ (1/2 : ℚ) < 1) ∧
    (gotRange "weird" = gotRange "medium" ∧
     gotRange "constructor" = RangeOutcome.typeError ∧
     1 ≤ randomPage (1/2)
       ({ min := 13/2, max := 10, pages := 200 } : ComplexityRange).pages ∧
     randomPage (1/2)
       ({ min := 13/2, max := 10, pages := 200 } : ComplexityRange).pages ≤
       ({ min := 13/2, max := 10, pages := 200 } : ComplexityRange).pages) :=
  ⟨⟨by decide, by decide, by decide, by decide, by decide, by decide, rfl,
    by norm_num, by norm_num⟩,
   ⟨c6_theorem.2.2.1 "weird" (by decide) (by decide) (by decide) (by decide)
      (by decide),
    c6_theorem.2.2.2.1 "constructor" (by decide),
    (c6_theorem.2.2.2.2 "hard"
      ({ min := 13/2, max := 10, pages := 200 } : ComplexityRange) (1/2) rfl
      (by norm_num) (by norm_num)).1,
    (c6_theorem.2.2.2.2 "hard"
      ({ min := 13/2, max := 10, pages := 200 } : ComplexityRange) (1/2) rfl
      (by norm_num) (by norm_num)).2⟩⟩

/-- Claim C5: on a successful response whose result set is missing or
empty, `loadQuestion` fails with the `EmptyResultError` message and
consumes exactly the one response at the head of the oracle — any further
available response stays unconsumed (no second fetch, no silent retry). -/
theorem c5_theorem (tier : Str) (resp : ApiResponse) (rest : List ApiResponse)
    (randIdx : Nat) (hok : resp.ok = true)
    (hempty : resp.questionsField = none ∨ resp.questionsField = some []) :
    gotLoadQuestion tier (resp :: rest) randIdx = (.error emptyResultError, rest) := by
  rcases hempty with h | h <;>
    simp [gotLoadQuestion, gotLoadQuestionInner, hok, h, emptyResultError] <;> decide

/-- Claim C5, witness: a mocked empty page followed by a spare response
that must remain unconsumed. -/
theorem c5_witness :
    (emptyPageResp.ok = true ∧
     (emptyPageResp.questionsField = none ∨
      emptyPageResp.questionsField = some [])) ∧
    gotLoadQuestion (str "medium") [emptyPageResp, spareResp] 0 =
      (.error emptyResultError, [spareResp]) :=
  ⟨⟨rfl, Or.inr rfl⟩,
   c5_theorem (str "medium") emptyPageResp [spareResp] 0 rfl (Or.inr rfl)⟩

theorem chgkExtractImagesF_eq_map (f : Nat) (s : Str) :
    chgkExtractImagesF f s = (imgSrcScanF f s).map chgkResolve := by
  induction f generalizing s with
  | zero => simp [chgkExtractImagesF, imgSrcScanF]
  | succ f ih =>
    cases s with
    | nil => simp [chgkExtractImagesF, imgSrcScanF]
    | cons c cs =>
      by_cases hp : (str "<p><img src=\"").isPrefixOf (c :: cs) = true
      · cases htk : imgSrcScanF.imgSrcTake (cs.drop 12) with
        | none => simp [chgkExtractImagesF, imgSrcScanF, hp, htk, ih]
        | some pr => simp [chgkExtractImagesF, imgSrcScanF, hp, htk, ih]
      · simp [chgkExtractImagesF, imgSrcScanF, hp, ih]

/-- Claim C9: `extractImages` of both adapters returns, in source order and
without de-duplication, one resolved URL per raw image reference found:
root-relative references get the source origin prefixed, any other
reference (in particular an absolute URL) passes through unchanged. -/
theorem c9_theorem :
    (∀ content, chgkExtractImages content = (imgSrcs content).map chgkResolve) ∧
    (∀ src, (str "/").isPrefixOf src = true →
      chgkResolve src = chgkOrigin ++ src ∧ gotResolve src = gotBaseUrl ++ src) ∧
    (∀ src, (str "/").isPrefixOf src = false →
      chgkResolve src = src ∧ gotResolve src = src) ∧
    (∀ pic : Str, pic.isEmpty = false → gotExtractImages pic = [gotResolve pic]) := by
  refine ⟨fun content => chgkExtractImagesF_eq_map _ _, ?_, ?_, ?_⟩
  · intro src h
    exact ⟨by simp [chgkResolve, h], by simp [gotResolve, h]⟩
  · intro src h
    exact ⟨by simp [chgkResolve, h], by simp [gotResolve, h]⟩
  · intro pic h
    simp [gotExtractImages, h]

/-- Claim C9, witness: a root-relative and an absolute reference. -/
theorem c9_witness :
    ((str "/").isPrefixOf (str "/foo.jpg") = true ∧
     (str "/").isPrefixOf (str "http://a/b.png") = false ∧
     (str "/foo.jpg").isEmpty = false) ∧
    (chgkResolve (str "/foo.jpg") = chgkOrigin ++ str "/foo.jpg" ∧
     gotResolve (str "/foo.jpg") = gotBaseUrl ++ str "/foo.jpg" ∧
     chgkResolve (str "http://a/b.png") = str "http://a/b.png" ∧
     gotExtractImages (str "/foo.jpg") = [gotResolve (str "/foo.jpg")]) :=
  ⟨⟨by decide, by decide, by decide⟩,
   ⟨(c9_theorem.2.1 (str "/foo.jpg") (by decide)).1,
    (c9_theorem.2.1 (str "/foo.jpg") (by decide)).2,
    (c9_theorem.2.2.1 (str "http://a/b.png") (by decide)).1,
    c9_theorem.2.2.2 (str "/foo.jpg") (by decide)⟩⟩

theorem optOr_getLast_cons {α : Type} (l : List α) (m : α) (f : α → Str)
    (old : Option Str) :
    optOr (((m :: l).getLast?).map f) old =
      optOr ((l.getLast?).map f) (some (f m)) := by
  cases l with
  | nil => simp [optOr]
  | cons x xs =>
    have h : (x :: xs).getLast? = some ((x :: xs).getLast (by simp)) := by
      simp [List.getLast?_eq_getLast]
    simp [List.getLast?_cons_cons, h, optOr]

theorem chgkFold_characterization (ms : List (Str × Str)) (r : ChgkRecord) :
    ms.foldl chgkStep r =
      { question :=
          optOr (((ms.filter isQuestionLabel).getLast?).map
            (fun m => cleanContent m.2 true false)) r.question,
        answer :=
          optOr (((ms.filter isAnswerLabel).getLast?).map
            (fun m => chgkParseAnswer m.2)) r.answer,
        description :=
          optOr (((ms.filter isDescriptionLabel).getLast?).map
            (fun m => chgkParseDescription m.2)) r.description,
        questionPreview :=
          r.questionPreview ++
            ((ms.filter isQuestionLabel).map
              (fun m => chgkExtractImages m.2)).flatten } := by
  induction ms generalizing r with
  | nil => cases r; simp [optOr]
  | cons m ms ih =>
    rw [List.foldl_cons, ih (chgkStep r m)]
    by_cases hq : containsSub (str "Вопрос 1:") m.1 = true
    · have hQ : isQuestionLabel m = true := by simp [isQuestionLabel, hq]
      have hA : isAnswerLabel m = false := by simp [isAnswerLabel, hQ]
      have hD : isDescriptionLabel m = false := by simp [isDescriptionLabel, hQ]
      have step : chgkStep r m =
        { r with questionPreview := r.questionPreview ++ chgkExtractImages m.2,
                 question := some (cleanContent m.2 true false) } := by
        simp [chgkStep, hq]
      rw [step]
      simp [List.filter_cons, hQ, hA, hD, optOr_getLast_cons, List.append_assoc]
    · by_cases ha : containsSub (str "Ответ:") m.1 = true
      · have hQ : isQuestionLabel m = false := by simp [isQuestionLabel, hq]
        have hA : isAnswerLabel m = true := by simp [isAnswerLabel, hQ, ha]
        have hD : isDescriptionLabel m = false := by simp [isDescriptionLabel, ha]
        have step : chgkStep r m =
            { r with answer := some (chgkParseAnswer m.2) } := by
          simp [chgkStep, hq, ha]
        rw [step]
        simp [List.filter_cons, hQ, hA, hD, optOr_getLast_cons]
      · by_cases hd : containsSub (str "Комментарии:") m.1 = true
        · have hQ : isQuestionLabel m = false := by simp [isQuestionLabel, hq]
          have hA : isAnswerLabel m = false := by simp [isAnswerLabel, ha]
          have hD : isDescriptionLabel m = true := by
            simp [isDescriptionLabel, hQ, ha, hd]
          have step : chgkStep r m =
              { r with description := some (chgkParseDescription m.2) } := by
            simp [chgkStep, hq, ha, hd]
          rw [step]
          simp [List.filter_cons, hQ, hA, hD, optOr_getLast_cons]
        · have hQ : isQuestionLabel m = false := by simp [isQuestionLabel, hq]
          have hA : isAnswerLabel m = false := by simp [isAnswerLabel, ha]
          have hD : isDescriptionLabel m = false := by simp [isDescriptionLabel, hd]
          have step : chgkStep r m = r := by
            simp [chgkStep, hq, ha, hd]
          rw [step]
          simp [List.filter_cons, hQ, hA, hD]

/-- Claim C4: for every decoded document, each recognized field of the
section scan is exactly the parse of the content span between the (last)
occurrence of its own label and the immediately following label — the spans
carried by `strongScan` end at the next `<strong>` match, whatever its
label — and matches with an unrecognized label contribute nothing, so their
content never leaks into a preceding recognized field. -/
theorem c4_theorem (html : Str) :
    chgkProcessMatches (strongScan html) =
      { question :=
          (((strongScan html).filter isQuestionLabel).getLast?).map
            (fun m => cleanContent m.2 true false),
        answer :=
          (((strongScan html).filter isAnswerLabel).getLast?).map
            (fun m => chgkParseAnswer m.2),
        description :=
          (((strongScan html).filter isDescriptionLabel).getLast?).map
            (fun m => chgkParseDescription m.2),
        questionPreview :=
          (((strongScan html).filter isQuestionLabel).map
            (fun m => chgkExtractImages m.2)).flatten } := by
  rw [chgkProcessMatches, chgkFold_characterization]
  have hO : ∀ x : Option Str, optOr x none = x := by
    intro x; cases x <;> simp [optOr]
  simp [chgkInit, hO]

theorem chgkResolve_resolvedFrom (src : Str) :
    imgResolvedFrom chgkOrigin (chgkResolve src) := by
  by_cases h : (str "/").isPrefixOf src = true
  · exact Or.inl ⟨src, by simp [chgkResolve, h], h⟩
  · right
    simp only [chgkResolve, h]
    exact eq_false_of_ne_true h

theorem gotResolve_resolvedFrom (src : Str) :
    imgResolvedFrom gotBaseUrl (gotResolve src) := by
  by_cases h : (str "/").isPrefixOf src = true
  · exact Or.inl ⟨src, by simp [gotResolve, h], h⟩
  · right
    simp only [gotResolve, h]
    exact eq_false_of_ne_true h

theorem mem_gotExtractImages (pic u : Str) (h : u ∈ gotExtractImages pic) :
    imgResolvedFrom gotBaseUrl u := by
  by_cases hp : pic.isEmpty = true
  · simp [gotExtractImages, hp] at h
  · simp only [gotExtractImages, hp] at h
    simp only [Bool.false_eq_true, if_false, List.mem_singleton] at h
    subst h
    exact gotResolve_resolvedFrom pic

theorem mem_chgkExtractImages (content u : Str) (h : u ∈ chgkExtractImages content) :
    imgResolvedFrom chgkOrigin u := by
  rw [chgkExtractImages, chgkExtractImagesF_eq_map] at h
  rcases List.mem_map.mp h with ⟨src, _, hu⟩
  rw [← hu]
  exact chgkResolve_resolvedFrom src

theorem mem_gotDescriptionParts_ne_nil (tier : Str) (qd : QuestionData)
    (x : Str) (h : x ∈ gotDescriptionParts tier qd) : x ≠ [] := by
  simp only [gotDescriptionParts, List.mem_append] at h
  rcases h with (h | h) | h
  · by_cases h1 : qd.zachet.isEmpty = true
    · simp [h1] at h
    · by_cases h2 : (jsTrim qd.zachet).isEmpty = true
      · simp [h1, h2] at h
      · simp only [h1, h2, Bool.false_eq_true, if_false, List.mem_singleton] at h
        subst h; simp [str]
  · by_cases h1 : qd.comment.isEmpty = true
    · simp [h1] at h
    · by_cases h2 : (jsTrim qd.comment).isEmpty = true
      · simp [h1, h2] at h
      · simp only [h1, h2, Bool.false_eq_true, if_false, List.mem_singleton] at h
        subst h
        intro hn
        rw [hn] at h2
        simp at h2
  · by_cases h1 : qd.complexity.isEmpty = true
    · simp [h1] at h
    · simp only [h1, Bool.false_eq_true, if_false, List.mem_singleton] at h
      subst h; simp [cxParagraph, str]

theorem joinSep_head_ne_nil (sep p : Str) (rest : List Str) (hp : p ≠ []) :
    joinSep sep (p :: rest) ≠ [] := by
  cases rest with
  | nil => simpa [joinSep] using hp
  | cons y ys => simp [joinSep, hp]

/-- Claim C3, counterexample: an image reference that is relative but not
root-relative (`img.png`) is placed in `questionPreview` unchanged, so a
present image list need not contain only absolute URLs. -/
theorem c3_counterexample :
    (gotParse (str "medium") qdRelPic).questionPreview = some [str "img.png"] ∧
    isAbsoluteUrl (str "img.png") = false := by
  constructor <;> decide

/-- Claim C3 (amended): no optional field (`description`,
`questionPreview`, `answerPreview`) is ever present with an empty value —
empty fields are wholly omitted — and every entry of a present image list
is the resolution of a raw reference: root-relative references get the base
origin prefixed, any other reference is passed through unchanged (so it is
absolute only if it already was). -/
theorem c3_theorem :
    (∀ (tier : Str) (qd : QuestionData),
      (∀ d, (gotParse tier qd).description = some d → d.isEmpty = false) ∧
      (∀ l, (gotParse tier qd).questionPreview = some l →
        l ≠ [] ∧ ∀ u ∈ l, imgResolvedFrom gotBaseUrl u) ∧
      (∀ l, (gotParse tier qd).answerPreview = some l →
        l ≠ [] ∧ ∀ u ∈ l, imgResolvedFrom gotBaseUrl u)) ∧
    (∀ html : Str,
      (∀ d, (chgkLoad html).description = some d → d.isEmpty = false) ∧
      (∀ l, (chgkLoad html).questionPreview = some l →
        l ≠ [] ∧ ∀ u ∈ l, imgResolvedFrom chgkOrigin u) ∧
      (chgkLoad html).answerPreview = none) := by
  constructor
  · intro tier qd
    refine ⟨?_, ?_, ?_⟩
    · intro d hd
      by_cases hp : (gotDescriptionParts tier qd).isEmpty = true
      · simp [gotParse, hp] at hd
      · simp only [gotParse, hp, Bool.false_eq_true, if_false,
          Option.some.injEq] at hd
        cases hparts : gotDescriptionParts tier qd with
        | nil => rw [hparts] at hp; simp at hp
        | cons p rest =>
          rw [hparts] at hd
          have hpne : p ≠ [] :=
            mem_gotDescriptionParts_ne_nil tier qd p (by rw [hparts]; simp)
          have : joinSep (str "\n\n") (p :: rest) ≠ [] :=
            joinSep_head_ne_nil _ _ _ hpne
          rw [← hd]
          simpa using this
    · intro l hl
      by_cases hpic : qd.razdatkaPic.isEmpty = true
      · simp [gotParse, hpic] at hl
      · by_cases hi : (gotExtractImages qd.razdatkaPic).isEmpty = true
        · simp [gotParse, hpic, hi] at hl
        · simp only [gotParse, hpic, hi, Bool.false_eq_true, if_false,
            Option.some.injEq] at hl
          subst hl
          refine ⟨by simpa using hi, ?_⟩
          intro u hu
          exact mem_gotExtractImages _ _ hu
    · intro l hl
      simp only [gotParse] at hl
      set ap := (if qd.answerPic.isEmpty then [] else gotExtractImages qd.answerPic) ++
        (if qd.commentPic.isEmpty then [] else gotExtractImages qd.commentPic) with hap
      by_cases hi : ap.isEmpty = true
      · simp [hi] at hl
      · simp only [hi, Bool.false_eq_true, if_false, Option.some.injEq] at hl
        subst hl
        refine ⟨by simpa using hi, ?_⟩
        intro u hu
        rw [hap] at hu
        rcases List.mem_append.mp hu with h | h
        · by_cases hp2 : qd.answerPic.isEmpty = true
          · simp [hp2] at h
          · simp only [hp2, Bool.false_eq_true, if_false] at h
            exact mem_gotExtractImages _ _ h
        · by_cases hp2 : qd.commentPic.isEmpty = true
          · simp [hp2] at h
          · simp only [hp2, Bool.false_eq_true, if_false] at h
            exact mem_gotExtractImages _ _ h
  · intro html
    refine ⟨?_, ?_, rfl⟩
    · intro d hd
      simp only [chgkLoad, chgkCleanup] at hd
      by_cases ht : jsTruthy (chgkProcessMatches (strongScan html)).description = true
      · rw [if_pos ht] at hd
        rw [hd] at ht
        simpa [jsTruthy] using ht
      · rw [if_neg ht] at hd
        exact absurd hd (by simp)
    · intro l hl
      simp only [chgkLoad, chgkCleanup] at hl
      by_cases he : (chgkProcessMatches (strongScan html)).questionPreview.isEmpty = true
      · simp [he] at hl
      · rw [if_neg (by simp [he])] at hl
        have hl' : (chgkProcessMatches (strongScan html)).questionPreview = l :=
          Option.some.inj hl
        constructor
        · rw [← hl']
          simpa using he
        · intro u hu
          rw [← hl', chgkProcessMatches, chgkFold_characterization] at hu
          simp only [chgkInit, List.nil_append] at hu
          rcases List.mem_flatten.mp hu with ⟨lst, hlst, hul⟩
          rcases List.mem_map.mp hlst with ⟨m, _, hm⟩
          rw [← hm] at hul
          exact mem_chgkExtractImages _ _ hul

/-- Claim C3, witness: a root-relative reference is resolved to an absolute
URL in a present, non-empty image list. -/
theorem c3_witness :
    ((gotParse (str "medium") qdRootPic).questionPreview =
       some [gotBaseUrl ++ str "/a.png"] ∧
     (gotBaseUrl ++ str "/a.png") ∈ [gotBaseUrl ++ str "/a.png"]) ∧
    ([gotBaseUrl ++ str "/a.png"] ≠ ([] : List Str) ∧
     imgResolvedFrom gotBaseUrl (gotBaseUrl ++ str "/a.png")) :=
  ⟨⟨by decide, by decide⟩,
   ⟨((c3_theorem.1 (str "medium") qdRootPic).2.1 [gotBaseUrl ++ str "/a.png"]
      (by decide)).1,
    ((c3_theorem.1 (str "medium") qdRootPic).2.1 [gotBaseUrl ++ str "/a.png"]
      (by decide)).2 (gotBaseUrl ++ str "/a.png") (by decide)⟩⟩

theorem jsTrim_nn_left (x : Str) : jsTrim (str "\n\n" ++ x) = jsTrim x := by
  unfold jsTrim
  have h : jsSpace '\n' = true := by decide
  simp only [str]
  simp [List.dropWhile_cons, h]

theorem jsTrim_nn_right (x : Str) : jsTrim (x ++ str "\n\n") = jsTrim x := by
  unfold jsTrim
  rw [List.dropWhile_append]
  by_cases hc : (x.dropWhile jsSpace).isEmpty = true
  · rw [if_pos hc]
    have h2 : (str "\n\n").dropWhile jsSpace = [] := by decide
    have h3 : x.dropWhile jsSpace = [] := by simpa using hc
    rw [h2, h3]
  · rw [if_neg hc, List.reverse_append]
    have h4 : (str "\n\n").reverse = str "\n\n" := by decide
    rw [h4]
    have h : jsSpace '\n' = true := by decide
    simp only [str]
    simp [List.dropWhile_cons, h]

/-- Claim C10: with `split = false` the `answer` field of the result is
empty and the `question` field carries the question section followed, after
a blank line, by the joined answer/description sections (the final trim
absorbs the separator when either side is absent); with `split = true` the
`question` field carries only the question section and the `answer` field
carries the answer/description sections. -/
theorem c10_theorem (qd : Question) (spoiler : Bool) :
    formatForTelegram qd false spoiler =
      (jsTrim (fmtQuestionSection qd ++ str "\n\n" ++ fmtAnswerText qd spoiler),
       []) ∧
    formatForTelegram qd true spoiler =
      (jsTrim (fmtQuestionSection qd), jsTrim (fmtAnswerText qd spoiler)) := by
  constructor
  · simp only [formatForTelegram, Bool.false_eq_true, if_false]
    by_cases h1 : (fmtQuestionSection qd).isEmpty = true
    · have h1' : fmtQuestionSection qd = [] := by simpa using h1
      by_cases h2 : (fmtAnswerText qd spoiler).isEmpty = true
      · have h2' : fmtAnswerText qd spoiler = [] := by simpa using h2
        simp [h1, h2, h1', h2']
        decide
      · simp only [h1, h2, Bool.not_true, Bool.not_false, Bool.false_and,
          Bool.false_eq_true, if_false, if_true, h1', List.nil_append]
        rw [jsTrim_nn_left]
        simp [jsTrim]
    · by_cases h2 : (fmtAnswerText qd spoiler).isEmpty = true
      · have h2' : fmtAnswerText qd spoiler = [] := by simpa using h2
        simp only [h1, h2, Bool.not_true, Bool.not_false, Bool.and_false,
          Bool.false_eq_true, if_false, h2', List.append_nil]
        rw [jsTrim_nn_right]
        simp [jsTrim]
      · simp only [h1, h2, Bool.not_false, Bool.and_self, if_true]
        simp [jsTrim]
  · rfl

/-! ## Lemmas about the shared escape loop -/

theorem escOne_append (c : Char) (a b : Str) :
    escOne c (a ++ b) = escOne c a ++ escOne c b := by
  induction a with
  | nil => rfl
  | cons x xs ih => by_cases h : x = c <;> simp [escOne, h, ih]

theorem escFold_append (L : List Char) (a b : Str) :
    L.foldl (fun acc c => escOne c acc) (a ++ b) =
      L.foldl (fun acc c => escOne c acc) a ++
        L.foldl (fun acc c => escOne c acc) b := by
  induction L generalizing a b with
  | nil => rfl
  | cons d L ih => simp only [List.foldl_cons, escOne_append]; exact ih _ _

theorem escapeChars_append (a b : Str) :
    escapeChars (a ++ b) = escapeChars a ++ escapeChars b :=
  escFold_append _ _ _

theorem escOne_eq_self (c : Char) (t : Str) (h : ∀ x ∈ t, x ≠ c) :
    escOne c t = t := by
  induction t with
  | nil => rfl
  | cons x xs ih =>
    simp [escOne, h x (by simp), ih (fun y hy => h y (by simp [hy]))]

theorem escFold_eq_self (L : List Char) (t : Str) (h : ∀ x ∈ t, x ∉ L) :
    L.foldl (fun acc c => escOne c acc) t = t := by
  induction L with
  | nil => rfl
  | cons d L ih =>
    have hd : escOne d t = t :=
      escOne_eq_self d t (fun x hx hc => h x hx (by simp [hc]))
    simp only [List.foldl_cons, hd]
    exact ih (fun x hx hc => h x hx (by simp [hc]))

theorem mem_escOne (c x : Char) (t : Str) (h : x ∈ escOne c t) :
    x = '\\' ∨ x ∈ t := by
  induction t with
  | nil => simp [escOne] at h
  | cons y ys ih =>
    by_cases hy : y = c
    · subst hy
      simp only [escOne, eq_self_iff_true, if_true, List.mem_cons] at h
      rcases h with h | h | h
      · exact Or.inl h
      · exact Or.inr (by simp [h])
      · rcases ih h with h' | h'
        · exact Or.inl h'
        · exact Or.inr (by simp [h'])
    · simp only [escOne, if_neg hy, List.mem_cons] at h
      rcases h with h | h
      · exact Or.inr (by simp [h])
      · rcases ih h with h' | h'
        · exact Or.inl h'
        · exact Or.inr (by simp [h'])

theorem mem_escFold (L : List Char) (x : Char) (t : Str)
    (h : x ∈ L.foldl (fun acc c => escOne c acc) t) : x = '\\' ∨ x ∈ t := by
  induction L generalizing t with
  | nil => exact Or.inr h
  | cons d L ih =>
    simp only [List.foldl_cons] at h
    rcases ih (escOne d t) h with h' | h'
    · exact Or.inl h'
    · exact mem_escOne d x t h'

theorem escapeChars_noNul (t : Str) (h : ∀ x ∈ t, x ≠ nulChar) :
    ∀ x ∈ escapeChars t, x ≠ nulChar := by
  intro x hx
  rcases mem_escFold specialChars x t hx with h' | h'
  · subst h'; decide
  · exact h x h'

/-! ## Lemmas about the decimal rendering used by the placeholders -/

theorem natCharsF_acc (f : Nat) : ∀ (n : Nat) (acc : Str),
    natCharsF f n acc = natCharsF f n [] ++ acc := by
  induction f with
  | zero => intro n acc; simp [natCharsF]
  | succ f ih =>
    intro n acc
    by_cases h : n < 10
    · simp [natCharsF, h]
    · simp only [natCharsF, h, if_false]
      rw [ih (n / 10) (Char.ofNat (48 + n % 10) :: acc),
        ih (n / 10) [Char.ofNat (48 + n % 10)]]
      simp

theorem natCharsF_congr (n : Nat) : ∀ f1 f2 : Nat, n < f1 → n < f2 →
    natCharsF f1 n [] = natCharsF f2 n [] := by
  induction n using Nat.strong_induction_on with
  | _ n ih =>
    intro f1 f2 h1 h2
    match f1, h1 with
    | f1 + 1, _ =>
      match f2, h2 with
      | f2 + 1, _ =>
        by_cases h : n < 10
        · simp [natCharsF, h]
        · simp only [natCharsF, h, if_false]
          rw [natCharsF_acc f1, natCharsF_acc f2]
          have hdiv : n / 10 < n := Nat.div_lt_self (by omega) (by omega)
          rw [ih (n / 10) hdiv f1 f2 (by omega) (by omega)]

theorem natCharsF_succ (f n : Nat) (acc : Str) :
    natCharsF (f + 1) n acc =
      if n < 10 then Char.ofNat (48 + n) :: acc
      else natCharsF f (n / 10) (Char.ofNat (48 + n % 10) :: acc) := rfl

theorem natChars_split (n : Nat) (h : ¬ n < 10) :
    natChars n = natChars (n / 10) ++ [Char.ofNat (48 + n % 10)] := by
  have hdiv : n / 10 < n := Nat.div_lt_self (by omega) (by omega)
  have h1 : natChars n = natCharsF n (n / 10) [Char.ofNat (48 + n % 10)] := by
    rw [natChars]
    cases n with
    | zero => omega
    | succ m => rw [natCharsF_succ, if_neg h]
  rw [h1, natCharsF_acc]
  congr 1
  rw [natChars]
  exact natCharsF_congr (n / 10) n (n / 10 + 1) hdiv (by omega)

theorem digit_isDigitC (d : Nat) (h : d < 10) :
    isDigitC (Char.ofNat (48 + d)) = true := by
  interval_cases d <;> decide

theorem digit_toNat (d : Nat) (h : d < 10) :
    (Char.ofNat (48 + d)).toNat = 48 + d := by
  interval_cases d <;> decide

theorem digit_not_special (d : Nat) (h : d < 10) :
    Char.ofNat (48 + d) ∉ specialChars := by
  interval_cases d <;> decide

theorem digit_ne_nul (d : Nat) (h : d < 10) :
    Char.ofNat (48 + d) ≠ nulChar := by
  interval_cases d <;> decide

theorem natChars_digits (n : Nat) : ∀ c ∈ natChars n, isDigitC c = true := by
  induction n using Nat.strong_induction_on with
  | _ n ih =>
    by_cases h : n < 10
    · intro c hc
      have : natChars n = [Char.ofNat (48 + n)] := by
        rw [natChars]; simp [natCharsF, h]
      rw [this] at hc
      simp only [List.mem_singleton] at hc
      subst hc
      exact digit_isDigitC n h
    · intro c hc
      rw [natChars_split n h] at hc
      rcases List.mem_append.mp hc with hc | hc
      · exact ih (n / 10) (Nat.div_lt_self (by omega) (by omega)) c hc
      · simp only [List.mem_singleton] at hc
        subst hc
        exact digit_isDigitC (n % 10) (Nat.mod_lt _ (by omega))

theorem natChars_ne_nil (n : Nat) : natChars n ≠ [] := by
  by_cases h : n < 10
  · rw [natChars]; simp [natCharsF, h]
  · rw [natChars_split n h]; simp

theorem charsToNat_append (a b : Str) :
    charsToNat (a ++ b) = b.foldl (fun acc c => acc * 10 + (c.toNat - 48))
      (charsToNat a) := by
  simp [charsToNat, List.foldl_append]

theorem charsToNat_natChars (n : Nat) : charsToNat (natChars n) = n := by
  induction n using Nat.strong_induction_on with
  | _ n ih =>
    by_cases h : n < 10
    · have : natChars n = [Char.ofNat (48 + n)] := by
        rw [natChars]; simp [natCharsF, h]
      rw [this]
      simp [charsToNat, digit_toNat n h]
    · rw [natChars_split n h, charsToNat_append,
        ih (n / 10) (Nat.div_lt_self (by omega) (by omega))]
      simp only [List.foldl_cons, List.foldl_nil]
      rw [digit_toNat (n % 10) (Nat.mod_lt _ (by omega))]
      omega

theorem takeWhile_append_all (p : Char → Bool) (a l : Str)
    (h : ∀ x ∈ a, p x = true) :
    (a ++ l).takeWhile p = a ++ l.takeWhile p := by
  induction a with
  | nil => simp
  | cons x xs ih =>
    simp [List.takeWhile_cons, h x (by simp),
      ih (fun y hy => h y (by simp [hy]))]

theorem isDigitC_not_special (c : Char) (h : isDigitC c = true) :
    c ∉ specialChars := by
  intro hc
  have hall : ∀ x ∈ specialChars, isDigitC x = false := by decide
  rw [hall c hc] at h
  exact Bool.false_ne_true h

theorem mem_placeholder_not_special (i : Nat) :
    ∀ c ∈ placeholder i, c ∉ specialChars := by
  intro c hc
  simp only [placeholder, List.append_assoc, List.cons_append, List.mem_cons,
    List.mem_append, List.mem_singleton] at hc
  rcases hc with h | h
  · subst h; decide
  · rcases h with h | h
    · have : ∀ x ∈ str "MDLINK", x ∉ specialChars := by decide
      exact this c h
    · rcases h with h | h
      · exact isDigitC_not_special c (natChars_digits i c h)
      · rcases h with h | h
        · subst h; decide
        · simp at h

theorem escapeChars_placeholder (i : Nat) :
    escapeChars (placeholder i) = placeholder i :=
  escFold_eq_self _ _ (mem_placeholder_not_special i)

theorem placeholder_length_pos (i : Nat) : 0 < (placeholder i).length := by
  simp [placeholder]

theorem tryPh_placeholder (i : Nat) (t : Str) :
    tryPh (str "MDLINK" ++ (natChars i ++ (nulChar :: t))) = some (i, t) := by
  have hpre : (str "MDLINK").isPrefixOf
      (str "MDLINK" ++ (natChars i ++ (nulChar :: t))) = true :=
    isPrefixOf_append_self _ _
  have hlen : (str "MDLINK").length = 6 := by decide
  have hdrop : (str "MDLINK" ++ (natChars i ++ (nulChar :: t))).drop 6 =
      natChars i ++ (nulChar :: t) := by
    rw [← hlen, List.drop_left]
  have htake : (natChars i ++ (nulChar :: t)).takeWhile isDigitC = natChars i := by
    rw [takeWhile_append_all isDigitC (natChars i) (nulChar :: t)
      (natChars_digits i)]
    simp [List.takeWhile_cons, show isDigitC nulChar = false from by decide]
  have hne : (natChars i).isEmpty = false := by
    cases hn : natChars i with
    | nil => exact absurd hn (natChars_ne_nil i)
    | cons a l => simp
  have hdr2 : (natChars i ++ (nulChar :: t)).drop (natChars i).length =
      nulChar :: t := List.drop_left _ _
  simp only [tryPh, hpre, if_true, hdrop, htake, hne, Bool.false_eq_true,
    if_false, hdr2]
  simp [charsToNat_natChars]

theorem restoreF_noNul (phs : List Str) (f : Nat) : ∀ s : Str,
    (∀ c ∈ s, c ≠ nulChar) → restoreF phs f s = s := by
  induction f with
  | zero => intro s _; rfl
  | succ f ih =>
    intro s hs
    cases s with
    | nil => rfl
    | cons c cs =>
      have hc : c ≠ nulChar := hs c (by simp)
      simp only [restoreF, hc, if_false]
      rw [ih cs (fun x hx => hs x (by simp [hx]))]

theorem restoreF_append_noNul (phs : List Str) (p : Str) : ∀ (f : Nat) (t : Str),
    (∀ c ∈ p, c ≠ nulChar) →
    restoreF phs f (p ++ t) = p ++ restoreF phs (f - p.length) t := by
  induction p with
  | nil => intro f t _; simp
  | cons c p ih =>
    intro f t hp
    have hc : c ≠ nulChar := hp c (by simp)
    cases f with
    | zero => simp [restoreF]
    | succ f =>
      simp only [List.cons_append, restoreF, hc, if_false, List.append_eq]
      rw [ih f t (fun x hx => hp x (by simp [hx]))]
      have harith : f + 1 - (c :: p).length = f - p.length := by
        simp only [List.length_cons]; omega
      rw [harith]

theorem restoreF_placeholder (phs : List Str) (i f : Nat) (t : Str) :
    restoreF phs (f + 1) (placeholder i ++ t) =
      lookupPh phs i ++ restoreF phs f t := by
  have hshape : placeholder i ++ t =
      nulChar :: (str "MDLINK" ++ (natChars i ++ (nulChar :: t))) := by
    simp [placeholder, List.append_assoc]
  rw [hshape]
  simp only [restoreF, eq_self_iff_true, if_true, tryPh_placeholder]

theorem mem_of_mem_takeWhile (p : Char → Bool) (x : Char) :
    ∀ l : Str, x ∈ l.takeWhile p → x ∈ l := by
  intro l
  induction l with
  | nil => simp
  | cons c cs ih =>
    by_cases hc : p c = true
    · simp only [List.takeWhile_cons, hc, if_true, List.mem_cons]
      rintro (h | h)
      · simp [h]
      · simp [ih h]
    · simp only [List.takeWhile_cons, hc, Bool.false_eq_true, if_false]
      intro h
      simp at h

theorem tryLink_mem (s link rest : Str) (h : tryLink s = some (link, rest)) :
    (∀ x ∈ link, x ∈ s) ∧ ∀ x ∈ rest, x ∈ s := by
  cases s with
  | nil => simp [tryLink] at h
  | cons c cs =>
    simp only [tryLink] at h
    split at h
    · split at h
      · simp at h
      · split at h
        · rename_i hc _ r2 hd
          split at h
          · simp at h
          · split at h
            · rename_i hu r4 hd2
              simp only [Option.some.injEq, Prod.mk.injEq] at h
              rcases h with ⟨hlink, hrest⟩
              have hcq : c = '[' := by assumption
              subst hcq
              have hr2 : ∀ x ∈ ']' :: '(' :: r2, x ∈ cs := by
                intro x hx
                exact List.mem_of_mem_drop (hd ▸ hx)
              have hr4 : ∀ x ∈ ')' :: r4, x ∈ r2 := by
                intro x hx
                exact List.mem_of_mem_drop (hd2 ▸ hx)
              constructor
              · intro x hx
                rw [← hlink] at hx
                simp only [List.mem_cons, List.mem_append,
                  List.mem_singleton] at hx
                rcases hx with (((hx | hx) | hx | hx | hx) | hx)
                · simp [hx]
                · exact List.mem_cons_of_mem _ (mem_of_mem_takeWhile _ _ _ hx)
                · exact List.mem_cons_of_mem _ (hr2 x (by simp [hx]))
                · exact List.mem_cons_of_mem _ (hr2 x (by simp [hx]))
                · refine List.mem_cons_of_mem _ (hr2 x ?_)
                  simp [mem_of_mem_takeWhile _ _ _ hx]
                · have hx2 : x = ')' := by simpa using hx
                  exact List.mem_cons_of_mem _
                    (hr2 x (by simp [hr4 x (by simp [hx2])]))
              · intro x hx
                rw [← hrest] at hx
                exact List.mem_cons_of_mem _ (hr2 x (by simp [hr4 x (by simp [hx])]))
            · simp at h
        · simp at h
    · simp at h

theorem linkScanF_noNul (f : Nat) : ∀ acc s : Str,
    (∀ x ∈ acc, x ≠ nulChar) → (∀ x ∈ s, x ≠ nulChar) →
    (∀ pr ∈ (linkScanF f acc s).1,
      (∀ x ∈ pr.1, x ≠ nulChar) ∧ (∀ x ∈ pr.2, x ≠ nulChar)) ∧
    (∀ x ∈ (linkScanF f acc s).2, x ≠ nulChar) := by
  induction f with
  | zero =>
    intro acc s hacc hs
    constructor
    · intro pr hpr; simp [linkScanF] at hpr
    · intro x hx
      simp only [linkScanF, List.mem_append, List.mem_reverse] at hx
      rcases hx with hx | hx
      · exact hacc x hx
      · exact hs x hx
  | succ f ih =>
    intro acc s hacc hs
    cases s with
    | nil =>
      constructor
      · intro pr hpr; simp [linkScanF] at hpr
      · intro x hx
        simp only [linkScanF, List.mem_reverse] at hx
        exact hacc x hx
    | cons c cs =>
      cases htl : tryLink (c :: cs) with
      | some pr =>
        rcases pr with ⟨link, rest⟩
        have hmem := tryLink_mem (c :: cs) link rest htl
        have hlink : ∀ x ∈ link, x ≠ nulChar := fun x hx => hs x (hmem.1 x hx)
        have hrest : ∀ x ∈ rest, x ≠ nulChar := fun x hx => hs x (hmem.2 x hx)
        have hih := ih [] rest (by simp) hrest
        constructor
        · intro pr2 hpr2
          simp only [linkScanF, htl, List.mem_cons] at hpr2
          rcases hpr2 with hpr2 | hpr2
          · subst hpr2
            exact ⟨fun x hx => hacc x (List.mem_reverse.mp hx), hlink⟩
          · exact hih.1 pr2 hpr2
        · intro x hx
          simp only [linkScanF, htl] at hx
          exact hih.2 x hx
      | none =>
        have hacc2 : ∀ x ∈ c :: acc, x ≠ nulChar := by
          intro x hx
          rcases List.mem_cons.mp hx with hx | hx
          · exact hs x (by simp [hx])
          · exact hacc x hx
        have hcs : ∀ x ∈ cs, x ≠ nulChar := fun x hx => hs x (by simp [hx])
        have hih := ih (c :: acc) cs hacc2 hcs
        constructor
        · intro pr hpr
          simp only [linkScanF, htl] at hpr
          exact hih.1 pr hpr
        · intro x hx
          simp only [linkScanF, htl] at hx
          exact hih.2 x hx

theorem restore_escape_withPh (phs : List Str) :
    ∀ (pairs : List (Str × Str)) (tail : Str) (k F : Nat),
    (∀ pr ∈ pairs, ∀ x ∈ pr.1, x ≠ nulChar) →
    (∀ x ∈ tail, x ≠ nulChar) →
    (∀ (j : Nat) (pr : Str × Str), pairs[j]? = some pr →
      phs[k + j]? = some pr.2) →
    (escapeChars (withPh k pairs tail)).length ≤ F →
    restoreF phs F (escapeChars (withPh k pairs tail)) =
      renderScanPairs pairs tail := by
  intro pairs
  induction pairs with
  | nil =>
    intro tail k F _ htail _ _
    exact restoreF_noNul phs F _ (escapeChars_noNul tail htail)
  | cons hd ps ih =>
    rcases hd with ⟨p, l⟩
    intro tail k F hpairs htail hphs hF
    have hsplit : escapeChars (withPh k ((p, l) :: ps) tail) =
        escapeChars p ++
          (placeholder k ++ escapeChars (withPh (k + 1) ps tail)) := by
      show escapeChars (p ++ placeholder k ++ withPh (k + 1) ps tail) = _
      rw [escapeChars_append, escapeChars_append, escapeChars_placeholder,
        List.append_assoc]
    have hpE : ∀ x ∈ escapeChars p, x ≠ nulChar :=
      escapeChars_noNul p (hpairs (p, l) (by simp))
    rw [hsplit] at hF ⊢
    rw [restoreF_append_noNul phs (escapeChars p) F _ hpE]
    have hlenph : 0 < (placeholder k).length := placeholder_length_pos k
    have hlen2 := hF
    simp only [List.length_append] at hlen2
    obtain ⟨F2, hF2⟩ : ∃ F2, F - (escapeChars p).length = F2 + 1 :=
      ⟨F - (escapeChars p).length - 1, by omega⟩
    rw [hF2, restoreF_placeholder]
    have hget0 := hphs 0 (p, l) (by simp)
    have hlook : lookupPh phs k = l := by
      simp only [Nat.add_zero] at hget0
      simp [lookupPh, hget0]
    rw [hlook]
    have hphs2 : ∀ (j : Nat) (pr : Str × Str), ps[j]? = some pr →
        phs[(k + 1) + j]? = some pr.2 := by
      intro j pr hj
      have h2 := hphs (j + 1) pr (by simpa using hj)
      rw [show k + 1 + j = k + (j + 1) from by omega]
      exact h2
    rw [ih tail (k + 1) F2 (fun pr hpr => hpairs pr (by simp [hpr])) htail
      hphs2 (by omega)]
    show _ = escapeChars p ++ l ++ renderScanPairs ps tail
    rw [List.append_assoc]

theorem noBareAux_escOne_self (c : Char) (hc : c ≠ '\\') :
    ∀ (t : Str) (prev : Char), noBareAux c prev (escOne c t) = true := by
  have hcc : ('\\' : Char) ≠ c := fun h => hc h.symm
  intro t
  induction t with
  | nil => intro prev; rfl
  | cons x xs ih =>
    intro prev
    by_cases hx : x = c
    · simp only [escOne, if_pos hx, noBareAux]
      simp [hcc, hx, ih c]
    · simp only [escOne, if_neg hx, noBareAux]
      simp [hx, ih x]

theorem noBare_escOne_self (c : Char) (hc : c ≠ '\\') (t : Str) :
    noBare c (escOne c t) = true := by
  have hcc : ('\\' : Char) ≠ c := fun h => hc h.symm
  cases t with
  | nil => rfl
  | cons x xs =>
    by_cases hx : x = c
    · simp only [escOne, if_pos hx, noBare, noBareAux]
      simp [hcc, hx, noBareAux_escOne_self c hc xs c,
        noBareAux_escOne_self c hc xs x]
    · simp only [escOne, if_neg hx, noBare, noBareAux]
      simp [hx, noBareAux_escOne_self c hc xs x]

theorem noBareAux_escOne_other (c c' : Char) (hc : c ≠ '\\') (hco : c' ≠ c) :
    ∀ (t : Str) (prev : Char), noBareAux c prev t = true →
      noBareAux c prev (escOne c' t) = true := by
  have hcc : ('\\' : Char) ≠ c := fun h => hc h.symm
  intro t
  induction t with
  | nil => intro prev _; rfl
  | cons x xs ih =>
    intro prev h
    simp only [noBareAux, Bool.and_eq_true] at h
    rcases h with ⟨h1, h2⟩
    by_cases hx : x = c'
    · simp only [escOne, if_pos hx, noBareAux]
      have hxc : x ≠ c := fun hh => hco (hx ▸ hh ▸ rfl)
      simp [hcc, hxc, ih x h2]
    · simp only [escOne, if_neg hx, noBareAux]
      simp only [Bool.and_eq_true]
      exact ⟨h1, ih x h2⟩

theorem noBare_escOne_other (c c' : Char) (hc : c ≠ '\\') (hco : c' ≠ c)
    (t : Str) (h : noBare c t = true) : noBare c (escOne c' t) = true := by
  have hcc : ('\\' : Char) ≠ c := fun h => hc h.symm
  cases t with
  | nil => rfl
  | cons x xs =>
    simp only [noBare, Bool.and_eq_true] at h
    rcases h with ⟨h1, h2⟩
    by_cases hx : x = c'
    · simp only [escOne, if_pos hx, noBare, noBareAux]
      have hxc : x ≠ c := fun hh => hco (hx ▸ hh ▸ rfl)
      simp [hcc, hxc, noBareAux_escOne_other c c' hc hco xs x h2]
    · simp only [escOne, if_neg hx, noBare]
      simp only [Bool.and_eq_true]
      refine ⟨h1, ?_⟩
      show noBareAux c x (escOne c' xs) = true
      exact noBareAux_escOne_other c c' hc hco xs x h2

theorem noBare_escFold_preserve (c : Char) (hc : c ≠ '\\') :
    ∀ L : List Char, (∀ e ∈ L, e ≠ c) → ∀ u : Str, noBare c u = true →
      noBare c (L.foldl (fun acc d => escOne d acc) u) = true := by
  intro L
  induction L with
  | nil => intro _ u h; exact h
  | cons d L ih =>
    intro hL u h
    simp only [List.foldl_cons]
    exact ih (fun e he => hL e (by simp [he]))
      (escOne d u) (noBare_escOne_other c d hc (hL d (by simp)) u h)

theorem escFold_noBare :
    ∀ L : List Char, (∀ d ∈ L, d ≠ '\\') → L.Nodup → ∀ c ∈ L, ∀ t : Str,
      noBare c (L.foldl (fun acc d => escOne d acc) t) = true := by
  intro L
  induction L with
  | nil => intro _ _ c hc; simp at hc
  | cons d L ih =>
    intro hL hnd c hcL t
    simp only [List.foldl_cons]
    rcases List.mem_cons.mp hcL with hcd | hcL2
    · subst hcd
      have hdL : ∀ e ∈ L, e ≠ c := by
        intro e he hec
        exact (List.nodup_cons.mp hnd).1 (hec ▸ he)
      exact noBare_escFold_preserve c (hL c (by simp)) L hdL (escOne c t)
        (noBare_escOne_self c (hL c (by simp)) t)
    · exact ih (fun e he => hL e (by simp [he])) (List.nodup_cons.mp hnd).2
        c hcL2 (escOne d t)

theorem escapeChars_noBare (c : Char) (hc : c ∈ specialChars) (t : Str) :
    noBare c (escapeChars t) = true :=
  escFold_noBare specialChars (by decide) (by decide) c hc t

theorem escOne_head? (c : Char) (t : Str) :
    (escOne c t).head? = t.head?.map (fun x => if x = c then '\\' else x) := by
  cases t with
  | nil => rfl
  | cons x xs =>
    by_cases hx : x = c <;> simp [escOne, hx]

theorem hasEscapedStar_escOne (c : Char) (hc1 : c ≠ '\\') (hc2 : c ≠ '*') :
    ∀ t : Str, hasEscapedStar t = false → hasEscapedStar (escOne c t) = false := by
  intro t
  induction t with
  | nil => intro _; rfl
  | cons x xs ih =>
    intro h
    simp only [hasEscapedStar, Bool.or_eq_false_iff, Bool.and_eq_false_iff] at h
    rcases h with ⟨h1, h2⟩
    by_cases hx : x = c
    · simp only [escOne, if_pos hx, hasEscapedStar]
      have hxs : x ≠ '*' := hx ▸ hc2
      have hxb : x ≠ '\\' := hx ▸ hc1
      simp [hxs, hxb, ih h2]
    · simp only [escOne, if_neg hx, hasEscapedStar]
      simp only [Bool.or_eq_false_iff, Bool.and_eq_false_iff]
      refine ⟨?_, ih h2⟩
      rcases h1 with h1 | h1
      · exact Or.inl h1
      · right
        rw [escOne_head?]
        cases hh : xs.head? with
        | none => simp
        | some y =>
          rw [hh] at h1
          simp only [Option.map_some']
          by_cases hyc : y = c
          · simp only [if_pos hyc]
            decide
          · simp only [if_neg hyc]
            simpa using h1
    
theorem escFold_hasEscapedStar :
    ∀ L : List Char, (∀ e ∈ L, e ≠ '\\' ∧ e ≠ '*') → ∀ t : Str,
      hasEscapedStar t = false →
      hasEscapedStar (L.foldl (fun acc d => escOne d acc) t) = false := by
  intro L
  induction L with
  | nil => intro _ t h; exact h
  | cons d L ih =>
    intro hL t h
    simp only [List.foldl_cons]
    exact ih (fun e he => hL e (by simp [he])) (escOne d t)
      (hasEscapedStar_escOne d (hL d (by simp)).1 (hL d (by simp)).2 t h)

theorem escapeChars_hasEscapedStar (t : Str) (h : hasEscapedStar t = false) :
    hasEscapedStar (escapeChars t) = false :=
  escFold_hasEscapedStar specialChars (by decide) t h

/-- Claim C2, counterexample: on the input `[a](b)` the link-preserving
`escapeMarkdownV2` returns the text unchanged, so the reserved characters
inside the link construct — here the leading `[` — are not
backslash-prefixed in the output. -/
theorem c2_counterexample :
    escapeMarkdownV2 (str "[a](b)") = str "[a](b)" ∧
    noBare '[' (escapeMarkdownV2 (str "[a](b)")) = false := by
  constructor <;> decide

/-- Claim C2 (amended): for inputs free of the `U+0000` placeholder
sentinel, `escapeMarkdownV2` decomposes the input into `[label](url)` link
constructs and the plain text around them, escapes every reserved character
of the plain text with a backslash prefix and keeps every link construct
byte-identical (so reserved characters inside links stay unescaped); the
escape loop backslash-prefixes every occurrence of every reserved character
of the text it is applied to, and never introduces an escaped `*`. -/
theorem c2_theorem (s : Str) (h : ∀ x ∈ s, x ≠ nulChar) :
    escapeMarkdownV2 s = renderScan (linkScan s) ∧
    (∀ c ∈ specialChars, ∀ t : Str, noBare c (escapeChars t) = true) ∧
    (∀ t : Str, hasEscapedStar t = false →
      hasEscapedStar (escapeChars t) = false) := by
  refine ⟨?_, fun c hc t => escapeChars_noBare c hc t,
    fun t ht => escapeChars_hasEscapedStar t ht⟩
  by_cases hs : s.isEmpty = true
  · have hnil : s = [] := by simpa using hs
    subst hnil
    decide
  · rw [escapeMarkdownV2, if_neg (by simpa using hs), restorePh, phase1]
    have hscan := linkScanF_noNul s.length [] s (by simp) h
    have hpairs : ∀ pr ∈ (linkScan s).1, ∀ x ∈ pr.1, x ≠ nulChar :=
      fun pr hpr => (hscan.1 pr hpr).1
    have htail : ∀ x ∈ (linkScan s).2, x ≠ nulChar := hscan.2
    have hphs : ∀ (j : Nat) (pr : Str × Str), (linkScan s).1[j]? = some pr →
        (linkMatches s)[0 + j]? = some pr.2 := by
      intro j pr hj
      rw [linkMatches, Nat.zero_add, List.getElem?_map, hj]
      rfl
    exact restore_escape_withPh (linkMatches s) (linkScan s).1 (linkScan s).2
      0 _ hpairs htail hphs (le_refl _)

/-- Claim C2, witness: a concrete NUL-free input containing punctuation, a
link construct and emphasis markers. -/
theorem c2_witness :
    (∀ x ∈ str "a.b *c* [x](y.z) d!", x ≠ nulChar) ∧
    (escapeMarkdownV2 (str "a.b *c* [x](y.z) d!") =
       renderScan (linkScan (str "a.b *c* [x](y.z) d!")) ∧
     (∀ c ∈ specialChars, ∀ t : Str, noBare c (escapeChars t) = true) ∧
     (∀ t : Str, hasEscapedStar t = false →
       hasEscapedStar (escapeChars t) = false)) :=
  ⟨by decide, c2_theorem (str "a.b *c* [x](y.z) d!") (by decide)⟩
